import Mathlib

/-!
Verification of the Parcel Audit reconciliation engine
(TheShippingyard/parcel-audit-web, src/app/parcel-audit/page.tsx).

This file gives a shallow embedding of the reconciliation code into Lean:
rows are association lists from column-header strings to cell strings,
JavaScript numbers are modelled as exact rationals (the source performs
only additions, divisions and comparisons on parsed currency values, and
the specification explicitly scopes out floating-point currency
correctness), `NaN` is modelled as `Option.none` where it can arise, and
timestamps are modelled as integer milliseconds on a timezone-naive
timeline.  Each definition mirrors the corresponding function of the
source file; doc comments record the source name and any modelling notes.
-/

set_option maxRecDepth 4096

/-! ## JavaScript value helpers -/

/-- A parsed CSV row, as produced by PapaParse with `header: true`: an
association list from the literal column header to the raw cell string,
in column order.  Headers of a row are pairwise distinct in JavaScript
(object keys); lookups below use first-match semantics, which coincides
with object lookup on such rows. -/
def Row : Type := List (String × String)

/-- Numeric value of a list of decimal digit characters (value of the
empty list is 0, matching `Number("") = 0` where this is used). -/
def natOfDigits (cs : List Char) : Nat :=
  cs.foldl (fun a c => a * 10 + (c.toNat - 48)) 0

/-- Does the pattern (second argument) occur at the head of the list?
Used to model JavaScript regex/substring matching over characters. -/
def chStarts : List Char → List Char → Bool
  | _, [] => true
  | [], _ :: _ => false
  | c :: cs, p :: ps => c = p && chStarts cs ps

/-- Does the pattern occur anywhere in the list? -/
def chContains : List Char → List Char → Bool
  | [], pat => chStarts [] pat
  | c :: cs, pat => chStarts (c :: cs) pat || chContains cs pat

/-- Model of JavaScript `String.prototype.includes`: substring
containment. -/
def jsIncludes (s sub : String) : Bool :=
  chContains s.toList sub.toList

/-- Strip leading and trailing whitespace; model of JavaScript
`String.prototype.trim` (the cells that occur are ASCII, where the two
whitespace notions agree).  Implemented over the character list so that
it evaluates by kernel reduction. -/
def jsTrim (s : String) : String :=
  String.mk (((s.toList.dropWhile Char.isWhitespace).reverse.dropWhile Char.isWhitespace).reverse)

/-- ASCII lowercase map; model of JavaScript `toLowerCase` on the ASCII
headers and cells that occur. -/
def jsLower (s : String) : String :=
  String.mk (s.toList.map Char.toLower)

/-- ASCII uppercase map; model of JavaScript `toUpperCase`. -/
def jsUpper (s : String) : String :=
  String.mk (s.toList.map Char.toUpper)

/-- Split a character list at every occurrence of the separator
character; model of JavaScript `split` with a one-character separator. -/
def splitOnChar (sep : Char) : List Char → List (List Char)
  | [] => [[]]
  | c :: cs =>
    match splitOnChar sep cs with
    | [] => if c = sep then [[], []] else [[c]]
    | h :: t => if c = sep then [] :: h :: t else (c :: h) :: t

/-- First-occurrence-ordered list of the distinct elements of `l`; models
iteration over a JavaScript `Set` (or the keys of an object built by
insertion), whose iteration order is insertion order. -/
def distinctL {α : Type} [BEq α] : List α → List α :=
  go []
where
  go (seen : List α) : List α → List α
    | [] => []
    | x :: xs => if seen.contains x then go seen xs else x :: go (x :: seen) xs

/-- Model of the JavaScript `||` chain over string-or-undefined values:
the first operand that is present and not the empty string (the only
falsy string). -/
def jsOrStr : List (Option String) → Option String
  | [] => none
  | none :: rest => jsOrStr rest
  | some s :: rest => if s = "" then jsOrStr rest else some s

/-- Model of the JavaScript `||` chain over plain strings. -/
def jsOrStrD : List String → String
  | [] => ""
  | s :: rest => if s = "" then jsOrStrD rest else s

/-! ## Kernel-reducible rational arithmetic

The standard `ℚ` ring operations are irreducible to the kernel, so the
executable definitions below use `mkRat`-based equivalents, which do
reduce; the lemmas `qAdd_eq`, `qMul_eq`, `qDiv_eq`, `qNeg_eq` and
`qAbs_eq` (in the theorem part of this file) identify them with the
ordinary operations. -/

/-- Reducible addition on `ℚ`. -/
def qAdd (a b : ℚ) : ℚ :=
  mkRat (a.num * (b.den : ℤ) + b.num * (a.den : ℤ)) (a.den * b.den)

/-- Reducible multiplication on `ℚ`. -/
def qMul (a b : ℚ) : ℚ :=
  mkRat (a.num * b.num) (a.den * b.den)

/-- Reducible negation on `ℚ`. -/
def qNeg (a : ℚ) : ℚ :=
  mkRat (-a.num) a.den

/-- Reducible division on `ℚ` (division by zero yields zero, as in
`ℚ`). -/
def qDiv (a b : ℚ) : ℚ :=
  if 0 ≤ b.num then mkRat (a.num * (b.den : ℤ)) (a.den * b.num.toNat)
  else mkRat (-(a.num * (b.den : ℤ))) (a.den * (-b.num).toNat)

/-- Reducible absolute value on `ℚ`. -/
def qAbs (a : ℚ) : ℚ :=
  if a.num < 0 then qNeg a else a

/-! ## Model of `Number(string)` (ECMAScript ToNumber on strings)

`jsNumber s = none` models `NaN`.  The model covers decimal numeric
literals (optional sign, integer and/or fraction digits, optional
exponent) and the empty/whitespace string (which converts to 0); the
source never feeds it the `Infinity` or radix-prefixed forms.  The
value is the exact mathematical value of the literal, consistent with
modelling JavaScript numbers as rationals. -/

/-- Parse an unsigned decimal mantissa from the front of `cs`; returns
`(n, k)` denoting the value `n / 10 ^ k` and the unconsumed remainder,
or `none` when no digit is present. -/
def parseMantissa (cs : List Char) : Option ((Nat × Nat) × List Char) :=
  let ds := cs.takeWhile Char.isDigit
  let r1 := cs.dropWhile Char.isDigit
  match r1 with
  | '.' :: r2 =>
    let fs := r2.takeWhile Char.isDigit
    let r3 := r2.dropWhile Char.isDigit
    if ds.isEmpty && fs.isEmpty then none
    else some ((natOfDigits ds * 10 ^ fs.length + natOfDigits fs, fs.length), r3)
  | _ => if ds.isEmpty then none else some ((natOfDigits ds, 0), r1)

/-- Parse the optional exponent suffix; returns the exponent, requiring
the whole remainder to be consumed. -/
def parseExpSuffix : List Char → Option ℤ
  | [] => some 0
  | c :: rest =>
    if c = 'e' || c = 'E' then
      match rest with
      | '+' :: ds =>
        if ds ≠ [] && ds.all Char.isDigit then some (natOfDigits ds : ℤ) else none
      | '-' :: ds =>
        if ds ≠ [] && ds.all Char.isDigit then some (-(natOfDigits ds : ℤ)) else none
      | ds =>
        if ds ≠ [] && ds.all Char.isDigit then some (natOfDigits ds : ℤ) else none
    else none

/-- Assemble `sign * n * 10 ^ (e - k)` as a rational. -/
def assembleNumber (neg : Bool) (n k : Nat) (e : ℤ) : ℚ :=
  let q :=
    if k ≤ e then mkRat ((n : ℤ) * 10 ^ (e - k).toNat) 1
    else mkRat (n : ℤ) (10 ^ ((k : ℤ) - e).toNat)
  if neg then qNeg q else q

/-- `Number(s)` for a string `s`; `none` models `NaN`. -/
def jsNumber (s : String) : Option ℚ :=
  let t := jsTrim s
  if t = "" then some 0
  else
    let cs := t.toList
    let signAndRest : Bool × List Char :=
      match cs with
      | '+' :: r => (false, r)
      | '-' :: r => (true, r)
      | _ => (false, cs)
    match parseMantissa signAndRest.2 with
    | none => none
    | some ((n, k), rest) =>
      (parseExpSuffix rest).map (fun e => assembleNumber signAndRest.1 n k e)

/-- Source `toNumber` (page.tsx:113): null/empty input gives 0, `$` and
`,` are stripped, then `Number(...)`, with `NaN` coerced to 0.  The
argument is `Option String`: `none` models `null`/`undefined`. -/
def toNumber (x : Option String) : ℚ :=
  match x with
  | none => 0
  | some s =>
    if s = "" then 0
    else
      match jsNumber (String.mk (s.toList.filter (fun c => c ≠ '$' && c ≠ ','))) with
      | none => 0
      | some q => q

/-! ## Header resolution (`getVal`, page.tsx:100) -/

/-- Normalisation used by `getVal`: lowercase, keep only `[a-z0-9]`
(the headers that occur are ASCII, where Lean `toLower` agrees with
JavaScript `toLowerCase`). -/
def normStr (s : String) : String :=
  String.mk ((jsLower s).toList.filter (fun c => ('a' ≤ c && c ≤ 'z') || ('0' ≤ c && c ≤ '9')))

/-- Replay of the loop `for (const key of Object.keys(r)) map[norm(key)] = key`
at query key `nk`: the entry is the last row header whose normalisation
is `nk`. -/
def normMapAt (r : Row) (nk : String) : Option String :=
  r.foldl (fun acc p => if normStr p.1 = nk then some p.1 else acc) none

/-- Phase 1 of `getVal`: first candidate whose exact header is present
with a non-empty value. -/
def getValExact (r : Row) : List String → Option String
  | [] => none
  | k :: ks =>
    match List.lookup k r with
    | some v => if v = "" then getValExact r ks else some (jsTrim v)
    | none => getValExact r ks

/-- Phase 2 of `getVal`: first candidate whose normalised form hits the
normalised-header map with a non-empty value (the `if (hit && ...)` guard
also rejects an empty-string header name, which is falsy). -/
def getValNorm (r : Row) : List String → Option String
  | [] => none
  | k :: ks =>
    match normMapAt r (normStr k) with
    | some hit =>
      if hit = "" then getValNorm r ks
      else
        match List.lookup hit r with
        | some v => if v = "" then getValNorm r ks else some (jsTrim v)
        | none => getValNorm r ks
    | none => getValNorm r ks

/-- Source `getVal` (page.tsx:100): exact matching over all candidates
first, then normalised matching over all candidates, else `""`. -/
def getVal (r : Row) (keys : List String) : String :=
  match getValExact r keys with
  | some v => v
  | none =>
    match getValNorm r keys with
    | some v => v
    | none => ""

/-! ## Timestamps and date parsing

Timestamps are integer milliseconds on a timezone-naive timeline, with
day 0 being 1970-01-01 (a Thursday).  The source runs in browser local
time but performs only calendar arithmetic on parsed timestamps, so the
uniform timeline is adequate; daylight-saving effects are outside the
model (and outside the claims). -/

/-- Milliseconds per day. -/
def msPerDay : ℤ := 86400000

/-- Leap-year predicate of the Gregorian calendar. -/
def isLeapYear (y : ℤ) : Bool :=
  (y.emod 4 = 0 && y.emod 100 ≠ 0) || y.emod 400 = 0

/-- Days in a month of the Gregorian calendar (0 for an invalid month
number). -/
def daysInMonth (y : ℤ) (m : Nat) : Nat :=
  match m with
  | 1 => 31
  | 2 => if isLeapYear y then 29 else 28
  | 3 => 31
  | 4 => 30
  | 5 => 31
  | 6 => 30
  | 7 => 31
  | 8 => 31
  | 9 => 30
  | 10 => 31
  | 11 => 30
  | 12 => 31
  | _ => 0

/-- Day number (days since 1970-01-01) of a Gregorian civil date; the
standard era-based conversion. -/
def daysFromCivil (y : ℤ) (m d : Nat) : ℤ :=
  let y2 : ℤ := if m ≤ 2 then y - 1 else y
  let era : ℤ := Int.fdiv y2 400
  let yoe : ℤ := y2 - era * 400
  let mp : Nat := if 2 < m then m - 3 else m + 9
  let doy : ℤ := ((153 * mp + 2) / 5 : Nat) + (d : ℤ) - 1
  let doe : ℤ := yoe * 365 + Int.fdiv yoe 4 - Int.fdiv yoe 100 + doy
  era * 146097 + doe - 719468

/-- Is the string a non-empty run of decimal digits? -/
def allDigits (s : String) : Bool :=
  s.toList ≠ [] && s.toList.all Char.isDigit

/-- Parse a date in the `M/d/yyyy` pattern of the date library (one or
two digit month and day, up to four digit year, valid calendar date);
returns the day number. -/
def parseMDY (s : String) : Option ℤ :=
  match (splitOnChar '/' s.toList).map String.mk with
  | [ms, ds, ys] =>
    if allDigits ms && allDigits ds && allDigits ys &&
        decide (ms.toList.length ≤ 2) && decide (ds.toList.length ≤ 2) &&
        decide (ys.toList.length ≤ 4) then
      let m := natOfDigits ms.toList
      let d := natOfDigits ds.toList
      let y : ℤ := (natOfDigits ys.toList : ℤ)
      if 1 ≤ m && m ≤ 12 && 1 ≤ d && d ≤ daysInMonth y m then
        some (daysFromCivil y m d)
      else none
    else none
  | _ => none

/-- Source `tryParseDate` (page.tsx:118), returning local-midnight
milliseconds.  In the source, `parse(s, "M/d/yyyy", ...)` never throws
(an unmatched string yields an Invalid Date), so the loop always
returns on its first pattern and the remaining patterns and the
`new Date(s)` fallback are unreachable.  An Invalid Date is truthy and
propagates to a false `isAfter`, so no late record is produced from it;
mapping it to `none` therefore preserves the set of emitted records. -/
def tryParseDate (s : String) : Option ℤ :=
  (parseMDY s).map (fun d => d * msPerDay)

/-- Source `combineDateTime` (page.tsx:126): parse the trimmed date; if
a time remains after stripping to digits and colons, set
hours/minutes from its first two `:`-separated fields (JavaScript
`setHours` normalises overflow, which adding milliseconds models
exactly); otherwise use end of day 23:59:59.999. -/
def combineDateTime (dateStr timeStr : String) : Option ℤ :=
  match tryParseDate (jsTrim dateStr) with
  | none => none
  | some base =>
    let tcs := (jsTrim timeStr).toList.filter (fun c => Char.isDigit c || c = ':')
    if tcs = [] then some (base + 23 * 3600000 + 59 * 60000 + 59 * 1000 + 999)
    else
      let parts := splitOnChar ':' tcs
      let hh := natOfDigits (parts.headD [])
      let mm := natOfDigits ((parts[1]?).getD ('0' :: '0' :: []))
      some (base + (hh : ℤ) * 3600000 + (mm : ℤ) * 60000)

/-- Day of week of a day number: 0 = Sunday, ..., 6 = Saturday (day 0,
1970-01-01, was a Thursday). -/
def weekdayOfDay (d : ℤ) : ℤ := (d + 4).emod 7

/-- Is the day a Saturday or Sunday? -/
def isWeekendDay (d : ℤ) : Bool :=
  weekdayOfDay d = 0 || weekdayOfDay d = 6

/-- The next day after `d` that is not a Saturday or Sunday (a weekend
run is at most two days long, so three candidates suffice). -/
def nextBusinessDay (d : ℤ) : ℤ :=
  if !isWeekendDay (d + 1) then d + 1
  else if !isWeekendDay (d + 2) then d + 2
  else d + 3

/-- Model of the date library `addBusinessDays` for non-negative counts
(the promise tables use 1..5): step to the next non-weekend day, `n`
times.  The library whole-week shortcut and its weekend-start
adjustment agree with this repeated step for every non-negative count. -/
def addBusinessDaysD (d : ℤ) : Nat → ℤ
  | 0 => d
  | n + 1 => addBusinessDaysD (nextBusinessDay d) n

/-! ## Late-delivery audit (`auditCarrierRowsWithPOS`, page.tsx:209) -/

/-- A promise rule: promised business days and cutoff time string. -/
structure SvcRule where
  days : Nat
  cutoff : String
deriving DecidableEq, Repr

/-- Milliseconds after midnight denoted by a rule cutoff such as
`"10:30"`: `cutoff.split(":").map(Number)` destructured to hours and
minutes with `|| 0` defaults (cutoff strings in the tables are digit
runs, on which `Number` agrees with the digit value). -/
def parseCutoffMs (c : String) : ℤ :=
  let parts := splitOnChar ':' c.toList
  let hh := natOfDigits (parts.headD [])
  let mm := natOfDigits ((parts[1]?).getD [])
  (hh : ℤ) * 3600000 + (mm : ℤ) * 60000

/-- Column-candidate configuration of one carrier (`FEDEX_COLS`,
`UPS_COLS`, `DHL_COLS`). -/
structure ColsCfg where
  tracking : List String
  service : List String
  shipDate : List String
  podDate : List String
  podTime : List String
  netCharge : List String

/-- Source `FEDEX_COLS` (page.tsx:46). -/
def FEDEX_COLS : ColsCfg where
  tracking := ["Express or Ground Tracking ID", "Tracking ID", "Tracking Number", "TrackingNumber", "Tracking #"]
  service := ["Service Type", "Service"]
  shipDate := ["Shipment Date", "Ship Date"]
  podDate := ["POD Delivery Date", "Delivery Date"]
  podTime := ["POD Delivery Time", "Delivery Time"]
  netCharge := ["Net Charge Amount", "Transportation Charge Amount", "Total Charges"]

/-- Source `UPS_COLS` (page.tsx:56). -/
def UPS_COLS : ColsCfg where
  tracking := ["Tracking Number", "TrackingNumber", "Tracking #", "Package Tracking Number", "Tracking Number 1"]
  service := ["Service Level", "Service", "Shipment Service"]
  shipDate := ["Pickup Date", "Ship Date", "Shipment Date"]
  podDate := ["Delivery Date", "Actual Delivery Date", "Billed Delivery Date"]
  podTime := ["Delivery Time", "Actual Delivery Time"]
  netCharge := ["Total Charges", "Net Charges", "Net Amount", "Transportation Charges"]

/-- Source `DHL_COLS` (page.tsx:68). -/
def DHL_COLS : ColsCfg where
  tracking := ["Air Waybill", "AWB", "Waybill Number", "Shipment Number", "Tracking Number"]
  service := ["Product", "Service", "Service Type"]
  shipDate := ["Shipment Date", "Ship Date", "Pickup Date"]
  podDate := ["Delivery Date", "POD Date"]
  podTime := ["Delivery Time", "POD Time"]
  netCharge := ["Total Net Amount", "Charges", "Net Charge Amount", "Shipment Amount", "Total Charges"]

/-- Source `FEDEX_RULES` (page.tsx:78), in definition order (string-key
object iteration order is insertion order). -/
def FEDEX_RULES : List (String × SvcRule) :=
  [("FEDEX PRIORITY OVERNIGHT", ⟨1, "10:30"⟩),
   ("FEDEX STANDARD OVERNIGHT", ⟨1, "15:00"⟩),
   ("FEDEX 2DAY", ⟨2, "20:00"⟩),
   ("FEDEX EXPRESS SAVER", ⟨3, "20:00"⟩)]

/-- Source `UPS_RULES` (page.tsx:84), in definition order. -/
def UPS_RULES : List (String × SvcRule) :=
  [("UPS NEXT DAY AIR", ⟨1, "10:30"⟩),
   ("UPS NEXT DAY AIR SAVER", ⟨1, "15:00"⟩),
   ("UPS 2ND DAY AIR", ⟨2, "20:00"⟩),
   ("UPS 3 DAY SELECT", ⟨3, "20:00"⟩),
   ("GROUND", ⟨5, "20:00"⟩)]

/-- Source `DHL_RULES` (page.tsx:91), in definition order. -/
def DHL_RULES : List (String × SvcRule) :=
  [("DHL EXPRESS WORLDWIDE", ⟨1, "20:00"⟩),
   ("DHL EXPRESS 12:00", ⟨1, "12:00"⟩),
   ("DHL EXPRESS 9:00", ⟨1, "09:00"⟩),
   ("DHL EXPRESS 10:30", ⟨1, "10:30"⟩),
   ("DHL ECONOMY SELECT", ⟨2, "20:00"⟩)]

/-- Source `Object.keys(RULES).find((k) => key.includes(k))` together
with the `RULES[matched]` lookup: the first table entry, in definition
order, whose key occurs as a substring of the service text. -/
def findServiceRule (rules : List (String × SvcRule)) (key : String) :
    Option (String × SvcRule) :=
  rules.find? (fun kr => jsIncludes key kr.1)

/-- A POS index entry (page.tsx:186): residential flag plus the POS
delivered date/time fallback fields (stored as `undefined`, here
`none`, when empty). -/
structure PosEntry where
  isResidential : Option Bool
  deliveredDate : Option String
  deliveredTime : Option String
deriving DecidableEq, Repr

/-- Source `POS_KEYS` (page.tsx:41). -/
def POS_KEYS : List String := ["Tracking Number", "TrackingNumber", "Tracking #", "Tracking"]

/-- Source `POS_ADDR_KEYS` (page.tsx:42). -/
def POS_ADDR_KEYS : List String :=
  ["Address Type", "Residential", "Is Residential", "Residential Indicator", "Dest Type", "Recipient Type"]

/-- Interpretation of one address-type cell in `buildPosIndex`: the
recognised residential/business vocabularies, `none` when the value is
not interpretable (in which case the source leaves the flag unchanged). -/
def interpAddr (v : String) : Option Bool :=
  let w := jsLower v
  if w = "res" || w = "residential" || w = "r" then some true
  else if w = "bus" || w = "business" || w = "commercial" || w = "b" then some false
  else if w = "true" || w = "yes" || w = "1" then some true
  else if w = "false" || w = "no" || w = "0" then some false
  else none

/-- The `isRes` loop of `buildPosIndex` over one row: each recognised
address-type column present in the row overwrites the flag, so the last
interpretable one wins; absent columns are skipped. -/
def rowIsRes (r : Row) : Option Bool :=
  POS_ADDR_KEYS.foldl
    (fun acc k =>
      match List.lookup k r with
      | none => acc
      | some v =>
        match interpAddr v with
        | some b => some b
        | none => acc)
    none

/-- The POS index entry derived from one row (page.tsx:191). -/
def rowPosEntry (r : Row) : PosEntry :=
  let dd := getVal r ["Delivered Date", "Delivery Date", "POD Date", "DeliveredDate", "DeliveryDate"]
  let dt := getVal r ["Delivered Time", "Delivery Time", "POD Time", "DeliveredTime", "DeliveryTime"]
  { isResidential := rowIsRes r
    deliveredDate := if dd = "" then none else some dd
    deliveredTime := if dt = "" then none else some dt }

/-- Object upsert `idx[t] = e`: replace in place if the key is present,
else append (object insertion order). -/
def posUpsert (idx : List (String × PosEntry)) (t : String) (e : PosEntry) :
    List (String × PosEntry) :=
  if (List.lookup t idx).isSome then idx.map (fun p => if p.1 = t then (p.1, e) else p)
  else idx ++ [(t, e)]

/-- Source `buildPosIndex` (page.tsx:186): rows without a resolvable
tracking key are skipped; each remaining row writes its entry, so a
later row with the same key overwrites an earlier one. -/
def buildPosIndex (rows : List Row) : List (String × PosEntry) :=
  rows.foldl
    (fun idx r =>
      let t := getVal r POS_KEYS
      if t = "" then idx else posUpsert idx t (rowPosEntry r))
    []

/-- A late-delivery record (`LateRow`, page.tsx:17). -/
structure LateRow where
  tracking : String
  carrier : String
  service : String
  shipDate : String
  delivered : String
  billed : String
deriving DecidableEq, Repr

/-- The POD date/time pair used for a row: the carrier columns, with the
POS index delivered fields substituted when the carrier POD date is
empty and the index has the tracking key (page.tsx:230). -/
def podResolve (C : ColsCfg) (pos : Option (List (String × PosEntry))) (r : Row) :
    String × String :=
  let tracking := getVal r C.tracking
  let p0 := getVal r C.podDate
  let t0 := getVal r C.podTime
  if p0 = "" then
    match pos with
    | some idx =>
      match List.lookup tracking idx with
      | some e => ((e.deliveredDate).getD "", (e.deliveredTime).getD "")
      | none => (p0, t0)
    | none => (p0, t0)
  else (p0, t0)

/-- The promised-by timestamp: ship day advanced by the promised number
of business days, at the cutoff time of day (page.tsx:242). -/
def promisedBy (shipped : ℤ) (rule : SvcRule) : ℤ :=
  addBusinessDaysD (Int.fdiv shipped msPerDay) rule.days * msPerDay + parseCutoffMs rule.cutoff

/-- Processing of one carrier row by `auditCarrierRowsWithPOS`
(page.tsx:217): resolve tracking and service, match a promise rule by
substring, resolve ship date and POD (with POS fallback), parse, and
emit a record exactly when the delivered timestamp is strictly after
the promised-by timestamp.  Rows whose dates fail to parse emit
nothing, as in the source (see `tryParseDate`). -/
def auditOneRow (C : ColsCfg) (rules : List (String × SvcRule))
    (carrierLabel : String) (pos : Option (List (String × PosEntry))) (r : Row) :
    Option LateRow :=
  let tracking := getVal r C.tracking
  let serviceRaw := getVal r C.service
  let key := jsUpper serviceRaw
  if tracking = "" || key = "" then none
  else
    match findServiceRule rules key with
    | none => none
    | some kr =>
      let shipDateStr := getVal r C.shipDate
      if shipDateStr = "" then none
      else
        let pod := podResolve C pos r
        if pod.1 = "" then none
        else
          match tryParseDate shipDateStr, combineDateTime pod.1 pod.2 with
          | some shipped, some delivered =>
            if promisedBy shipped kr.2 < delivered then
              some { tracking := tracking
                     carrier := carrierLabel
                     service := serviceRaw
                     shipDate := shipDateStr
                     delivered := pod.1 ++ (if pod.2 = "" then "" else " " ++ pod.2)
                     billed := getVal r C.netCharge }
            else none
          | _, _ => none

/-- Source `auditCarrierRowsWithPOS` (page.tsx:209): the `forEach` with
`out.push` accumulates the per-row results in row order. -/
def auditCarrierRowsWithPOS (rows : List Row) (C : ColsCfg)
    (rules : List (String × SvcRule)) (carrierLabel : String)
    (pos : Option (List (String × PosEntry))) : List LateRow :=
  rows.foldl
    (fun out r =>
      match auditOneRow C rules carrierLabel pos r with
      | some lr => out ++ [lr]
      | none => out)
    []

/-! ## Billing / surcharge audit (`auditBillingIssues`, page.tsx:291) -/

/-- Truncating decimal rounding of ECMAScript `toFixed`: the integer
`n` with `n / 10 ^ f` closest to `|q|`, ties to the larger `n`, with the
sign re-applied.  (The source applies `toFixed` to exact parsed
amounts; the rational model keeps them exact.) -/
def toFixedInt (f : Nat) (q : ℚ) : ℤ :=
  if q < 0 then
    -(Rat.floor (qAdd (qMul (qNeg q) (mkRat (10 ^ f) 1)) (mkRat 1 2)))
  else
    Rat.floor (qAdd (qMul q (mkRat (10 ^ f) 1)) (mkRat 1 2))

/-- Left-pad a digit string with zeros to width `f`. -/
def padZeros (f : Nat) (s : String) : String :=
  String.mk (List.replicate (f - s.toList.length) '0' ++ s.toList)

/-- The string produced by `q.toFixed(f)` for `f ≥ 1`. -/
def toFixedStr (f : Nat) (q : ℚ) : String :=
  let n := toFixedInt f q
  let a := n.natAbs
  (if n < 0 then "-" else "") ++ Nat.repr (a / 10 ^ f) ++ "." ++ padZeros f (Nat.repr (a % 10 ^ f))

/-- Case-insensitive single-word containment test, modelling a regex
such as `/residential/i`. -/
def kwTest1 (w : String) (d : String) : Bool :=
  chContains (jsLower d).toList w.toList

/-- Scan for `w1` followed by optional whitespace followed by `w2`;
models a regex such as `/fuel\s*surcharge/i` (the words start with
non-whitespace, so the greedy whitespace run is forced). -/
def scanTwoWord (w1 w2 : List Char) : List Char → Bool
  | [] => false
  | c :: rest =>
    (chStarts (c :: rest) w1 &&
      chStarts (((c :: rest).drop w1.length).dropWhile Char.isWhitespace) w2) ||
    scanTwoWord w1 w2 rest

/-- Case-insensitive two-word test with optional whitespace between. -/
def kwTest2 (w1 w2 : String) (d : String) : Bool :=
  scanTwoWord w1.toList w2.toList (jsLower d).toList

/-- Source `SURCHARGE_KEYWORDS` (page.tsx:261): ordered regex/label
pairs; the first matching pattern wins. -/
def SURCHARGE_KEYWORDS : List ((String → Bool) × String) :=
  [(kwTest2 "address" "correction", "Address Correction Fee"),
   (kwTest1 "residential", "Residential Surcharge"),
   (kwTest1 "saturday", "Saturday Delivery Surcharge"),
   (kwTest2 "delivery" "area", "Delivery Area Surcharge"),
   (kwTest2 "additional" "handling", "Additional Handling"),
   (fun d => kwTest1 "oversize" d || kwTest2 "large" "package" d, "Oversize/Large Package"),
   (kwTest2 "fuel" "surcharge", "Fuel Surcharge")]

/-- Match of `/(Charge\s*Description|Description)\.?([0-9]+)?/i` at the
head of the (lowercased) character list: returns the remainder after
the matched word on success.  At a fixed position the engine tries the
first alternative, then the second. -/
def descMatchAt (cs : List Char) : Option (List Char) :=
  if chStarts cs "charge".toList then
    let r2 := (cs.drop 6).dropWhile Char.isWhitespace
    if chStarts r2 "description".toList then some (r2.drop 11) else none
  else if chStarts cs "description".toList then some (cs.drop 11)
  else none

/-- Match of `/(Charge\s*Amount|Amount)\.?([0-9]+)?/i` at the head of
the (lowercased) character list. -/
def amtMatchAt (cs : List Char) : Option (List Char) :=
  if chStarts cs "charge".toList then
    let r2 := (cs.drop 6).dropWhile Char.isWhitespace
    if chStarts r2 "amount".toList then some (r2.drop 6) else none
  else if chStarts cs "amount".toList then some (cs.drop 6)
  else none

/-- The capture group `([0-9]+)?` after an optional dot: the digit run
following the matched word (with one dot skipped), possibly empty. -/
def grabIdx (rest : List Char) : String :=
  let r2 := match rest with
    | '.' :: t => t
    | _ => rest
  String.mk (r2.takeWhile Char.isDigit)

/-- Leftmost match: try the matcher at each position, left to right. -/
def scanRegexIdx (matchAt : List Char → Option (List Char)) : List Char → Option String
  | [] => none
  | c :: rest =>
    match matchAt (c :: rest) with
    | some after => some (grabIdx after)
    | none => scanRegexIdx matchAt rest

/-- The numeric-suffix capture of the description-column regex on a
header, or `none` when the header does not match. -/
def descIdxOf (h : String) : Option String :=
  scanRegexIdx descMatchAt (jsLower h).toList

/-- The numeric-suffix capture of the amount-column regex on a header,
or `none` when the header does not match. -/
def amtIdxOf (h : String) : Option String :=
  scanRegexIdx amtMatchAt (jsLower h).toList

/-- Source `findChargePairs` (page.tsx:272): collect description-like
and amount-like columns with their numeric suffixes, then pair each
description column with the first unused amount column sharing its
non-empty suffix, falling back to the unused amount column at the same
positional index. -/
def findChargePairs (headers : List String) : List (String × String) :=
  let descCols := headers.filterMap (fun h => (descIdxOf h).map (fun i => (h, i)))
  let amtCols := headers.filterMap (fun h => (amtIdxOf h).map (fun i => (h, i)))
  (descCols.foldl
    (fun (acc : Nat × List String × List (String × String)) d =>
      let i := acc.1
      let used := acc.2.1
      let pairs := acc.2.2
      let m1 := amtCols.find? (fun a => !(a.2 == "") && a.2 == d.2 && !(used.contains a.1))
      let m := match m1 with
        | some a => some a
        | none =>
          match amtCols[i]? with
          | some a => if used.contains a.1 then none else some a
          | none => none
      match m with
      | some a => (i + 1, a.1 :: used, pairs ++ [(d.1, a.1)])
      | none => (i + 1, used, pairs))
    (0, [], [])).2.2

/-- Per-tracking accumulator of `auditBillingIssues` (page.tsx:301). -/
structure TrackData where
  items : List (String × ℚ)
  transAmt : ℚ
  fuelAmt : ℚ
deriving DecidableEq, Repr

/-- The freshly inserted accumulator. -/
def emptyTD : TrackData := ⟨[], 0, 0⟩

/-- A billing issue (`ChargeIssue`, page.tsx:26); `amount = none`
models `NaN`. -/
structure ChargeIssue where
  tracking : String
  carrier : String
  description : String
  amount : Option ℚ
  note : String
deriving DecidableEq, Repr

/-- Object upsert on the per-tracking map, applying `f` to the existing
entry or to a fresh one. -/
def tdUpsert (m : List (String × TrackData)) (t : String) (f : TrackData → TrackData) :
    List (String × TrackData) :=
  if (List.lookup t m).isSome then m.map (fun p => if p.1 = t then (p.1, f p.2) else p)
  else m ++ [(t, f emptyTD)]

/-- The transportation-amount candidate cell of a row: the `||` chain of
direct property reads (page.tsx:310). -/
def transCand (r : Row) : Option String :=
  jsOrStr [List.lookup "Transportation Charges" r, List.lookup "Transportation Charge Amount" r,
    List.lookup "Net Charges" r, List.lookup "Net Charge Amount" r, List.lookup "Total Charges" r]

/-- The fuel-amount candidate cell of a row (page.tsx:316). -/
def fuelCand (r : Row) : Option String :=
  jsOrStr [List.lookup "Fuel Surcharge" r, List.lookup "Fuel Surcharge Amount" r]

/-- The residential-mismatch suffix appended to a surcharge note. -/
def resSuffix : String := " — POS indicates BUSINESS, verify surcharge"

/-- The duplicate-charge note. -/
def dupNote : String := "Possible duplicate charge"

/-- The fuel-anomaly note for a given fraction (page.tsx:350). -/
def mkFuelNote (pct : ℚ) : String :=
  "Fuel surcharge anomaly (" ++ toFixedStr 1 (qMul pct (mkRat 100 1)) ++ "% of transportation)"

/-- The itemised-pair loop of one row (page.tsx:323): collect non-empty,
non-zero (description, amount) items in pair order, and emit a keyword
issue for each item whose description matches a surcharge pattern, with
the residential mismatch suffix when the POS index marks the tracking
key as business. -/
def pairEmits (pairs : List (String × String)) (pos : Option (List (String × PosEntry)))
    (tracking label : String) (r : Row) : List (String × ℚ) × List ChargeIssue :=
  pairs.foldl
    (fun acc pr =>
      let d := jsTrim ((List.lookup pr.1 r).getD "")
      let a := toNumber (List.lookup pr.2 r)
      if d = "" || a = 0 then acc
      else
        let newIssues : List ChargeIssue :=
          match SURCHARGE_KEYWORDS.find? (fun s => s.1 d) with
          | some hit =>
            let sfx :=
              if kwTest1 "residential" d then
                match pos with
                | some idx =>
                  match List.lookup tracking idx with
                  | some p => if p.isResidential = some false then resSuffix else ""
                  | none => ""
                | none => ""
              else ""
            [{ tracking := tracking, carrier := label, description := d,
               amount := some a, note := hit.2 ++ sfx }]
          | none => []
        (acc.1 ++ [(d, a)], acc.2 ++ newIssues))
    ([], [])

/-- Processing of one row in the main loop of `auditBillingIssues`
(page.tsx:303): skip rows without a tracking key; update the
transportation amount (`||`: keep the first non-zero value) and add the
fuel amount; then either process itemised pairs, or, when the source
has no pairs at all, emit a fuel-anomaly issue if the running fuel and
transportation totals are positive with ratio above 0.35 (or negative
ratio, which the positivity guard makes unreachable). -/
def processRow (label : String) (tkeys : List String) (pairs : List (String × String))
    (pos : Option (List (String × PosEntry))) (st : List (String × TrackData)) (r : Row) :
    List (String × TrackData) × List ChargeIssue :=
  let tracking := getVal r tkeys
  if tracking = "" then (st, [])
  else
    let st1 := tdUpsert st tracking (fun td =>
      { td with
        transAmt := if td.transAmt = 0 then toNumber (transCand r) else td.transAmt
        fuelAmt := qAdd td.fuelAmt (toNumber (fuelCand r)) })
    if pairs.isEmpty then
      let td := (List.lookup tracking st1).getD emptyTD
      if 0 < td.fuelAmt ∧ 0 < td.transAmt then
        let pct := qDiv td.fuelAmt td.transAmt
        if mkRat 35 100 < pct ∨ pct < 0 then
          (st1, [{ tracking := tracking, carrier := label, description := "Fuel Surcharge",
                   amount := some (mkRat (toFixedInt 2 td.fuelAmt) 100), note := mkFuelNote pct }])
        else (st1, [])
      else (st1, [])
    else
      let ie := pairEmits pairs pos tracking label r
      let st2 := tdUpsert st1 tracking (fun td => { td with items := td.items ++ ie.1 })
      (st2, ie.2)

/-- The row loop of `auditBillingIssues`: thread the per-tracking map
through the rows, accumulating issues in emission order. -/
def phase1 (label : String) (tkeys : List String) (pairs : List (String × String))
    (pos : Option (List (String × PosEntry))) :
    List (String × TrackData) → List Row → List (String × TrackData) × List ChargeIssue
  | st, [] => (st, [])
  | st, r :: rs =>
    let pr := processRow label tkeys pairs pos st r
    let rest := phase1 label tkeys pairs pos pr.1 rs
    (rest.1, pr.2 ++ rest.2)

/-- The duplicate-detection pass for one tracking entry (page.tsx:358):
group items by the string `desc + "|" + amount.toFixed(2)` (object keys
in first-occurrence order with total counts) and emit one issue per
group with count at least 2, destructuring the key back through
`split("|")`. -/
def dupIssuesFor (label t : String) (data : TrackData) : List ChargeIssue :=
  let keys := data.items.map (fun it => it.1 ++ "|" ++ toFixedStr 2 it.2)
  (distinctL keys).filterMap (fun k =>
    if 2 ≤ keys.count k then
      let parts := (splitOnChar '|' k.toList).map String.mk
      some { tracking := t, carrier := label, description := parts.headD "",
             amount := match parts[1]? with
               | some p => jsNumber p
               | none => none,
             note := dupNote }
    else none)

/-- Source `auditBillingIssues` (page.tsx:291): empty input gives no
issues; otherwise charge pairs are detected on the first row headers,
the row loop runs, and the duplicate pass is appended per tracking
entry in insertion order. -/
def auditBillingIssues (rows : List Row) (label : String) (tkeys : List String)
    (pos : Option (List (String × PosEntry))) : List ChargeIssue :=
  match rows with
  | [] => []
  | r0 :: _ =>
    let pairs := findChargePairs (r0.map Prod.fst)
    let pi := phase1 label tkeys pairs pos [] rows
    pi.2 ++ pi.1.foldl (fun acc p => acc ++ dupIssuesFor label p.1 p.2) []

/-! ## Set-membership comparison (`results`, page.tsx:473) -/

/-- Source `CARRIER_KEYS` (page.tsx:37). -/
def CARRIER_KEYS : List String :=
  ["Tracking Number", "TrackingNumber", "Tracking #", "Tracking ID", "Air Waybill", "AWB",
   "Shipment Number", "Express or Ground Tracking ID", "Tracking Number 1", "Package Tracking Number"]

/-- The tracking key extracted from a carrier row (page.tsx:452): FedEx,
then UPS, then DHL column sets, then the generic list, first non-empty
result winning. -/
def carrierKeyOf (r : Row) : String :=
  jsOrStrD [getVal r FEDEX_COLS.tracking, getVal r UPS_COLS.tracking,
    getVal r DHL_COLS.tracking, getVal r CARRIER_KEYS]

/-- The carrier-side key set (page.tsx:448), in insertion order. -/
def carrierKeySet (rows : List Row) : List String :=
  distinctL ((rows.map carrierKeyOf).filter (fun t => !(t == "")))

/-- The tracking key extracted from a POS row (page.tsx:467). -/
def posKeyOf (r : Row) : String := getVal r POS_KEYS

/-- The POS-side key set (page.tsx:463), in insertion order. -/
def posKeySet (rows : List Row) : List String :=
  distinctL ((rows.map posKeyOf).filter (fun t => !(t == "")))

/-- A set-membership discrepancy (`Item`, page.tsx:15); `side` is
`"CarrierOnly"` or `"POSOnly"`. -/
structure AuditItem where
  tracking : String
  side : String
  note : String
deriving DecidableEq, Repr

/-- The CarrierOnly recommendation text. -/
def carrierOnlyNote : String := "In UPS/FedEx/DHL only → reconcile in POS."

/-- The POSOnly recommendation text. -/
def posOnlyNote : String := "In POS only → consider VOID/REFUND claim."

/-- Source `results` (page.tsx:473) before its final sort: iterate the
union of both key sets (set iteration order: carrier keys then new POS
keys); a key on exactly one side emits one item, a key on both sides
emits nothing.  The source then sorts by `localeCompare`, a
locale-dependent permutation that the claims (about membership and
counts) do not observe; it is omitted from the model. -/
def resultsFor (ck pk : List String) : List AuditItem :=
  (distinctL (ck ++ pk)).foldl
    (fun out t =>
      (out ++
        (if ck.contains t && !(pk.contains t) then [⟨t, "CarrierOnly", carrierOnlyNote⟩] else [])) ++
      (if !(ck.contains t) && pk.contains t then ([⟨t, "POSOnly", posOnlyNote⟩] : List AuditItem) else []))
    []

/-- The full set-membership comparison from the uploaded row sets. -/
def discrepancyResults (carrierRows posRows : List Row) : List AuditItem :=
  resultsFor (carrierKeySet carrierRows) (posKeySet posRows)

/-! ## Amount-based comparison engine (spec §4.5)

The repository source under `src/` implements only the set-membership
comparison; the amount-based mode (carrier amount vs POS amount with a
cent tolerance) is described by the specification and by the FAQ/landing
copy but its implementation is not among the source files.  The
definitions below are therefore modelled from the specification text. -/

/-- An amount-based discrepancy (spec §3). -/
structure Discrepancy where
  key : String
  carrierAmt : ℚ
  posAmt : ℚ
  diff : ℚ
  note : String
deriving DecidableEq, Repr

/-- Modelled from the spec: classification of a signed difference
against the tolerance — absolute difference within tolerance is
`"Match – OK"`, above it `"Overbilled"`, below its negation
`"Underbilled – Review"` (spec §4.5). -/
def specClassify (tol diff : ℚ) : String :=
  if qAbs diff ≤ tol then "Match – OK"
  else if tol < diff then "Overbilled"
  else "Underbilled – Review"

/-- Modelled from the spec: the amount recorded for a key in an
aggregated index, a key absent on a side being treated as amount 0
(spec §4.5). -/
def specAmtOf (idx : List (String × ℚ)) (t : String) : ℚ :=
  (List.lookup t idx).getD 0

/-- Modelled from the spec: the amount-based Comparison Engine — one
Discrepancy per key in the union of both indices, with
`diff = carrierAmount − posAmount` and the tolerance classification
(spec §4.5; the engine itself is absent from `src/`). -/
def specCompareIndices (carrier pos : List (String × ℚ)) (tol : ℚ) : List Discrepancy :=
  (distinctL (carrier.map Prod.fst ++ pos.map Prod.fst)).map (fun t =>
    let c := specAmtOf carrier t
    let p := specAmtOf pos t
    let d := qAdd c (qNeg p)
    { key := t, carrierAmt := c, posAmt := p, diff := d, note := specClassify tol d })

example : parseMDY "1/2/2026" = some (daysFromCivil 2026 1 2) := by decide
example : daysFromCivil 1970 1 1 = 0 := by decide
example : weekdayOfDay (daysFromCivil 2026 1 2) = 5 := by decide
example : parseMDY "2/30/2021" = none := by decide
example : parseMDY "2026-01-02" = none := by decide
example :
    (auditOneRow UPS_COLS UPS_RULES "UPS" none
      [("Tracking Number", "1Z99"), ("Service Level", "UPS NEXT DAY AIR"),
       ("Pickup Date", "1/2/2026"), ("Delivery Date", "1/5/2026"),
       ("Delivery Time", "11:00")]).isSome = true := by decide
example :
    (auditOneRow UPS_COLS UPS_RULES "UPS" none
      [("Tracking Number", "1Z99"), ("Service Level", "UPS NEXT DAY AIR"),
       ("Pickup Date", "1/2/2026"), ("Delivery Date", "1/5/2026"),
       ("Delivery Time", "09:00")]).isSome = false := by decide
example :
    (auditOneRow UPS_COLS UPS_RULES "UPS" none
      [("Tracking Number", "1Z99"), ("Service Level", "UPS NEXT DAY AIR"),
       ("Pickup Date", "1/2/2026"), ("Delivery Date", "1/5/2026"),
       ("Delivery Time", "10:30")]).isSome = false := by decide

example : toNumber (some "$1,234.56") = mkRat 123456 100 := by decide
example : toNumber (some "(45.00)") = 0 := by decide
example : toNumber (some "-") = 0 := by decide
example : toNumber (some "") = 0 := by decide
example : jsNumber "12." = some 12 := by decide
example : jsNumber ".5" = some (mkRat 1 2) := by decide
example : jsNumber "1e-2" = some (mkRat 1 100) := by decide
example : jsNumber "2E3" = some 2000 := by decide
example : getVal [("tracking number", "A"), ("Tracking #", "B")]
    ["Tracking Number", "Tracking #"] = "B" := by decide
example : getVal [("Tracking  Number", "A")] ["Tracking Number"] = "A" := by decide
example : getVal [("x", "1")] ["y"] = "" := by decide


/-! ## Derived observations used by the claim statements -/

/-- Does the exact phase of `getVal` hit candidate `k` on row `r`? -/
def exactHitB (r : Row) (k : String) : Bool :=
  match List.lookup k r with
  | some v => !(v == "")
  | none => false

/-- Does the normalised phase of `getVal` hit candidate `k` on row
`r`? -/
def normHitB (r : Row) (k : String) : Bool :=
  match normMapAt r (normStr k) with
  | some hit =>
    !(hit == "") &&
      (match List.lookup hit r with
       | some v => !(v == "")
       | none => false)
  | none => false

/-- The fuel total recorded for a key in the per-tracking map (0 when
the key is absent). -/
def fuelAt (m : List (String × TrackData)) (t : String) : ℚ :=
  ((List.lookup t m).getD emptyTD).fuelAmt

/-- The transportation amount recorded for a key in the per-tracking
map (0 when the key is absent). -/
def transAt (m : List (String × TrackData)) (t : String) : ℚ :=
  ((List.lookup t m).getD emptyTD).transAmt

/-- The items recorded for a key in the per-tracking map. -/
def itemsOf (m : List (String × TrackData)) (t : String) : List (String × ℚ) :=
  ((List.lookup t m).getD emptyTD).items

/-- The first non-zero element of a list of amounts, or 0; the value of
a `x = x || new` update chain. -/
def firstNonZero : List ℚ → ℚ
  | [] => 0
  | x :: xs => if x = 0 then firstNonZero xs else x

/-- The headers of the first uploaded row (the source reads
`Object.keys(rows[0] || {})`). -/
def headersOf (rows : List Row) : List String :=
  match rows with
  | [] => []
  | r0 :: _ => r0.map Prod.fst

/-- The duplicate-grouping key of an item:
`desc + "|" + amount.toFixed(2)`. -/
def dupKey (it : String × ℚ) : String :=
  it.1 ++ "|" ++ toFixedStr 2 it.2

/-- The per-tracking map reached by `auditBillingIssues` after its row
loop. -/
def billingState (rows : List Row) (label : String) (tkeys : List String)
    (pos : Option (List (String × PosEntry))) : List (String × TrackData) :=
  match rows with
  | [] => []
  | r0 :: _ => (phase1 label tkeys (findChargePairs (r0.map Prod.fst)) pos [] rows).1

/-- Recogniser of fuel-anomaly notes: they are exactly the notes
beginning with the fixed fuel-anomaly text. -/
def isFuelNote (n : String) : Bool :=
  chStarts n.toList "Fuel surcharge anomaly (".toList

/-! ## Theorems

First the conversion lemmas identifying the kernel-reducible rational
operations with the ordinary ones, then generic list lemmas, then the
claim theorems. -/

theorem qAdd_eq (a b : ℚ) : qAdd a b = a + b := by
  rw [qAdd, Rat.mkRat_eq_div]
  have ha : ((a.den : ℤ) : ℚ) ≠ 0 := by exact_mod_cast a.den_ne_zero
  have hb : ((b.den : ℤ) : ℚ) ≠ 0 := by exact_mod_cast b.den_ne_zero
  push_cast
  conv_rhs => rw [← Rat.num_div_den a, ← Rat.num_div_den b]
  field_simp

theorem qMul_eq (a b : ℚ) : qMul a b = a * b := by
  rw [qMul, Rat.mkRat_eq_div]
  have ha : ((a.den : ℤ) : ℚ) ≠ 0 := by exact_mod_cast a.den_ne_zero
  have hb : ((b.den : ℤ) : ℚ) ≠ 0 := by exact_mod_cast b.den_ne_zero
  push_cast
  conv_rhs => rw [← Rat.num_div_den a, ← Rat.num_div_den b]
  field_simp

theorem qNeg_eq (a : ℚ) : qNeg a = -a := by
  rw [qNeg, Rat.mkRat_eq_div]
  push_cast
  rw [neg_div, Rat.num_div_den]

theorem qDiv_eq (a b : ℚ) : qDiv a b = a / b := by
  rcases lt_trichotomy b.num 0 with h | h | h
  · rw [qDiv, if_neg (not_le.mpr h), Rat.mkRat_eq_div]
    have ha : ((a.den : ℤ) : ℚ) ≠ 0 := by exact_mod_cast a.den_ne_zero
    have hb : ((b.den : ℤ) : ℚ) ≠ 0 := by exact_mod_cast b.den_ne_zero
    have hbn : ((b.num : ℤ) : ℚ) ≠ 0 := by exact_mod_cast h.ne
    have htn : (((-b.num).toNat : ℕ) : ℚ) = -(b.num : ℚ) := by
      have := Int.toNat_of_nonneg (a := -b.num) (by omega)
      exact_mod_cast this
    push_cast
    rw [htn]
    conv_rhs => rw [← Rat.num_div_den a, ← Rat.num_div_den b]
    field_simp
  · have hb0 : b = 0 := by
      rwa [Rat.num_eq_zero] at h
    subst hb0
    simp [qDiv, Rat.mkRat_eq_div]
  · rw [qDiv, if_pos h.le, Rat.mkRat_eq_div]
    have ha : ((a.den : ℤ) : ℚ) ≠ 0 := by exact_mod_cast a.den_ne_zero
    have hb : ((b.den : ℤ) : ℚ) ≠ 0 := by exact_mod_cast b.den_ne_zero
    have hbn : ((b.num : ℤ) : ℚ) ≠ 0 := by exact_mod_cast h.ne'
    have htn : (((b.num).toNat : ℕ) : ℚ) = (b.num : ℚ) := by
      have := Int.toNat_of_nonneg (a := b.num) h.le
      exact_mod_cast this
    push_cast
    rw [htn]
    conv_rhs => rw [← Rat.num_div_den a, ← Rat.num_div_den b]
    field_simp

theorem qAbs_eq (a : ℚ) : qAbs a = |a| := by
  rw [qAbs]
  by_cases h : a.num < 0
  · rw [if_pos h, qNeg_eq, abs_of_neg]
    rwa [← Rat.num_neg]
  · rw [if_neg h, abs_of_nonneg]
    have : 0 ≤ a.num := not_lt.mp h
    rwa [← Rat.num_nonneg]

/-! ### Generic list lemmas -/

section ListLemmas

variable {α : Type} [BEq α] [LawfulBEq α]

theorem distinctL_go_mem (x : α) :
    ∀ (l seen : List α), x ∈ distinctL.go seen l ↔ (x ∈ l ∧ x ∉ seen)
  | [], seen => by simp [distinctL.go]
  | y :: l, seen => by
    simp only [distinctL.go]
    by_cases hy : y ∈ seen
    · rw [if_pos (by simpa using hy), distinctL_go_mem x l seen]
      simp only [List.mem_cons]
      constructor
      · rintro ⟨h1, h2⟩
        exact ⟨Or.inr h1, h2⟩
      · rintro ⟨rfl | h1, h2⟩
        · exact absurd hy h2
        · exact ⟨h1, h2⟩
    · rw [if_neg (by simpa using hy)]
      simp only [List.mem_cons, distinctL_go_mem x l (y :: seen)]
      constructor
      · rintro (rfl | ⟨h1, h2⟩)
        · exact ⟨Or.inl rfl, hy⟩
        · exact ⟨Or.inr h1, fun hx => h2 (Or.inr hx)⟩
      · rintro ⟨rfl | h1, h2⟩
        · exact Or.inl rfl
        · by_cases hxy : x = y
          · exact Or.inl hxy
          · refine Or.inr ⟨h1, fun hd => ?_⟩
            rcases hd with h | h
            · exact hxy h
            · exact h2 h

theorem distinctL_mem (x : α) (l : List α) : x ∈ distinctL l ↔ x ∈ l := by
  rw [distinctL, distinctL_go_mem]
  simp

theorem distinctL_go_nodup : ∀ (l seen : List α), (distinctL.go seen l).Nodup ∧
    ∀ x ∈ distinctL.go seen l, x ∉ seen
  | [], seen => by simp [distinctL.go]
  | y :: l, seen => by
    simp only [distinctL.go]
    by_cases hy : y ∈ seen
    · rw [if_pos (by simpa using hy)]
      exact distinctL_go_nodup l seen
    · rw [if_neg (by simpa using hy)]
      obtain ⟨hnd, hni⟩ := distinctL_go_nodup l (y :: seen)
      refine ⟨List.nodup_cons.mpr ⟨fun hmem => ?_, hnd⟩, ?_⟩
      · exact hni y hmem (List.mem_cons_self _ _)
      · intro x hx
        rcases List.mem_cons.mp hx with rfl | hx
        · exact hy
        · exact fun hs => hni x hx (List.mem_cons_of_mem _ hs)

theorem distinctL_nodup (l : List α) : (distinctL l).Nodup :=
  (distinctL_go_nodup l []).1

end ListLemmas

section FindLemmas

theorem find?_min_index {α : Type} (p : α → Bool) :
    ∀ (l : List α) (i : Nat) (hi : i < l.length), p (l.get ⟨i, hi⟩) = true →
      ∃ j, ∃ hj : j < l.length, j ≤ i ∧ l.find? p = some (l.get ⟨j, hj⟩) ∧
        p (l.get ⟨j, hj⟩) = true ∧
        ∀ k, (hk : k < l.length) → k < j → p (l.get ⟨k, hk⟩) = false
  | a :: l, i, hi, hp => by
    cases ha : p a
    · cases i with
      | zero => simp only [List.get] at hp; rw [hp] at ha; cases ha
      | succ i' =>
        have hi' : i' < l.length := by simpa using hi
        have hp' : p (l.get ⟨i', hi'⟩) = true := by simpa using hp
        obtain ⟨j, hj, hji, hfind, hpj, hmin⟩ := find?_min_index p l i' hi' hp'
        refine ⟨j + 1, by simpa using hj, by omega, ?_, by simpa using hpj, ?_⟩
        · simpa [List.find?, ha] using hfind
        · intro k hk hkj
          cases k with
          | zero => simpa using ha
          | succ k' =>
            have hk' : k' < l.length := by simpa using hk
            simpa using hmin k' hk' (by omega)
    · exact ⟨0, by simp, Nat.zero_le _, by simp [List.find?, ha], by simpa using ha,
        by omega⟩

end FindLemmas

section CountLemmas

theorem length_filterMap_ite {α β : Type} (P : α → Prop) [DecidablePred P] (f : α → β)
    (l : List α) :
    (l.filterMap (fun a => if P a then some (f a) else none)).length =
      l.countP (fun a => decide (P a)) := by
  induction l with
  | nil => simp
  | cons a l ih =>
    by_cases h : P a
    · simp [List.filterMap_cons, h, List.countP_cons, ih]
    · simp [List.filterMap_cons, h, List.countP_cons, ih]

theorem foldl_append_eq {α β : Type} (g : α → List β) (l : List α) :
    ∀ init : List β, l.foldl (fun acc x => acc ++ g x) init = init ++ (l.map g).flatten := by
  induction l with
  | nil => simp
  | cons a l ih =>
    intro init
    simp [List.foldl_cons, ih (init ++ g a)]

end CountLemmas

section LookupLemmas

variable {β : Type}

theorem lookup_map_update (m : List (String × β)) (t : String) (f : β → β) :
    List.lookup t (m.map (fun p => if p.1 = t then (p.1, f p.2) else p)) =
      (List.lookup t m).map f := by
  induction m with
  | nil => simp
  | cons p m ih =>
    rcases p with ⟨k, v⟩
    by_cases h : k = t
    · subst h
      have hhd : (if ((k, v) : String × β).1 = k then (((k, v) : String × β).1, f ((k, v) : String × β).2) else ((k, v) : String × β)) = (k, f v) := by
        simp
      simp only [List.map_cons, hhd]
      simp [List.lookup]
    · have hbeq : (t == k) = false := beq_eq_false_iff_ne.mpr (fun he => h he.symm)
      simp only [List.map_cons]
      rw [if_neg (h : ¬(k, v).1 = t)]
      simp [List.lookup, hbeq, ih]

theorem lookup_eq_none_iff (m : List (String × β)) (t : String) :
    List.lookup t m = none ↔ t ∉ m.map Prod.fst := by
  induction m with
  | nil => simp
  | cons p m ih =>
    rcases p with ⟨k, v⟩
    by_cases h : t = k
    · subst h
      simp [List.lookup]
    · have hbeq : (t == k) = false := beq_eq_false_iff_ne.mpr h
      simp [List.lookup, hbeq, ih, h]

theorem lookup_append_right (m1 m2 : List (String × β)) (t : String)
    (h : List.lookup t m1 = none) :
    List.lookup t (m1 ++ m2) = List.lookup t m2 := by
  induction m1 with
  | nil => simp
  | cons p m ih =>
    rcases p with ⟨k, v⟩
    by_cases hk : t = k
    · subst hk
      simp [List.lookup] at h
    · have hbeq : (t == k) = false := beq_eq_false_iff_ne.mpr hk
      simp only [List.cons_append, List.lookup, hbeq] at h ⊢
      exact ih h

theorem lookup_singleton_self (t : String) (v : β) :
    List.lookup t [(t, v)] = some v := by
  simp [List.lookup]

end LookupLemmas

/-! ### getVal phase characterisation -/

theorem getValExact_eq (r : Row) :
    ∀ keys, getValExact r keys =
      (keys.find? (exactHitB r)).map (fun k => jsTrim ((List.lookup k r).getD ""))
  | [] => rfl
  | k :: ks => by
    cases h : List.lookup k r with
    | none =>
      have hb : exactHitB r k = false := by simp [exactHitB, h]
      simp [getValExact, List.find?, hb, h, getValExact_eq r ks]
    | some v =>
      by_cases hv : v = ""
      · subst hv
        have hb : exactHitB r k = false := by simp [exactHitB, h]
        simp [getValExact, List.find?, hb, h, getValExact_eq r ks]
      · have hb : exactHitB r k = true := by simp [exactHitB, h, hv]
        simp [getValExact, List.find?, hb, h, hv]

theorem getValNorm_eq (r : Row) :
    ∀ keys, getValNorm r keys =
      (keys.find? (normHitB r)).map
        (fun k => jsTrim ((List.lookup ((normMapAt r (normStr k)).getD "") r).getD ""))
  | [] => rfl
  | k :: ks => by
    cases hm : normMapAt r (normStr k) with
    | none =>
      have hb : normHitB r k = false := by simp [normHitB, hm]
      simp [getValNorm, List.find?, hb, hm, getValNorm_eq r ks]
    | some hit =>
      by_cases hh : hit = ""
      · subst hh
        have hb : normHitB r k = false := by simp [normHitB, hm]
        simp [getValNorm, List.find?, hb, hm, getValNorm_eq r ks]
      · cases hl : List.lookup hit r with
        | none =>
          have hb : normHitB r k = false := by simp [normHitB, hm, hl, hh]
          simp [getValNorm, List.find?, hb, hm, hl, hh, getValNorm_eq r ks]
        | some v =>
          by_cases hv : v = ""
          · subst hv
            have hb : normHitB r k = false := by simp [normHitB, hm, hl, hh]
            simp [getValNorm, List.find?, hb, hm, hl, hh, getValNorm_eq r ks]
          · have hb : normHitB r k = true := by simp [normHitB, hm, hl, hh, hv]
            simp [getValNorm, List.find?, hb, hm, hl, hh, hv]

/-- C5: header resolution first iterates all candidates looking for an
exact header with a non-empty value; only when that whole phase fails
does it retry all candidates against the normalised-header lookup, and
it returns the empty string when neither phase resolves.  The second
conjunct records the precedence consequence on a concrete record: the
exact match on the later candidate beats the normalised-only match on
the earlier candidate. -/
theorem claim_C5_getVal_two_phase :
    (∀ (r : Row) (keys : List String),
      getVal r keys =
        match keys.find? (exactHitB r) with
        | some k => jsTrim ((List.lookup k r).getD "")
        | none =>
          match keys.find? (normHitB r) with
          | some k =>
            jsTrim ((List.lookup ((normMapAt r (normStr k)).getD "") r).getD "")
          | none => "") ∧
    getVal [("tracking number", "A"), ("Tracking #", "B")]
      ["Tracking Number", "Tracking #"] = "B" := by
  constructor
  · intro r keys
    rw [getVal, getValExact_eq, getValNorm_eq]
    cases keys.find? (exactHitB r) with
    | some k => rfl
    | none =>
      cases keys.find? (normHitB r) with
      | some k => rfl
      | none => rfl
  · decide

/-! ### C3: money parsing -/

/-- C3 counterexample: the claim maps `"(45.00)"` to `-45.00`, but the
source `toNumber` strips only `$` and `,`, so `Number("(45.00)")` is
`NaN` and the result is `0`, not `-45`. -/
theorem claim_C3_counterexample :
    toNumber (some "(45.00)") = 0 ∧ (0 : ℚ) ≠ -45 :=
  ⟨by decide, by norm_num⟩

/-- C3 amended: `toNumber` is total by construction and maps
`"$1,234.56"` to `1234.56`, the empty/null/'-' inputs to `0`, and every
input whose stripped form is not a numeric literal to `0`; in
particular the parenthesised accounting negative `"(45.00)"` maps to
`0`, not to `-45.00`. -/
theorem claim_C3_money_parsing :
    toNumber (some "$1,234.56") = 123456 / 100 ∧
    toNumber (some "") = 0 ∧
    toNumber none = 0 ∧
    toNumber (some "-") = 0 ∧
    toNumber (some "(45.00)") = 0 ∧
    ∀ s : String,
      jsNumber (String.mk (s.toList.filter (fun c => c ≠ '$' && c ≠ ','))) = none →
      toNumber (some s) = 0 := by
  refine ⟨?_, by decide, by decide, by decide, by decide, ?_⟩
  · have h : toNumber (some "$1,234.56") = mkRat 123456 100 := by decide
    rw [h, Rat.mkRat_eq_div]
    norm_num
  · intro s h
    by_cases hs : s = ""
    · subst hs
      decide
    · have h2 : jsNumber (String.mk (s.data.filter (fun c => !decide (c = '$') && !decide (c = ',')))) = none := by
        simpa [String.toList] using h
      simp [toNumber, hs, h2]

/-- C3 witness: the final conjunct applied at the unparseable input
`"abc"`. -/
theorem claim_C3_money_parsing_witness :
    jsNumber (String.mk (("abc".toList).filter (fun c => c ≠ '$' && c ≠ ','))) = none ∧
    toNumber (some "abc") = 0 :=
  ⟨by decide, claim_C3_money_parsing.2.2.2.2.2 "abc" (by decide)⟩

/-! ### C6: service-rule lookup order -/

/-- C6: service-level lookup matches a rule key by substring containment
in the uppercased service text and takes the first matching key in
table-definition order: whenever the keys at positions `i < j` both
occur in the text, the returned entry sits at some position `m ≤ i` and
every earlier key fails to match. -/
theorem claim_C6_first_rule_wins :
    ∀ (rules : List (String × SvcRule)) (key : String) (i j : Nat)
      (hi : i < rules.length) (hj : j < rules.length),
      i < j →
      jsIncludes key (rules.get ⟨i, hi⟩).1 = true →
      jsIncludes key (rules.get ⟨j, hj⟩).1 = true →
      ∃ m, ∃ hm : m < rules.length, m ≤ i ∧
        findServiceRule rules key = some (rules.get ⟨m, hm⟩) ∧
        ∀ k, (hk : k < rules.length) → k < m →
          jsIncludes key (rules.get ⟨k, hk⟩).1 = false := by
  intro rules key i j hi hj _ hpi _
  obtain ⟨m, hm, hmi, hfind, _, hmin⟩ :=
    find?_min_index (fun kr => jsIncludes key kr.1) rules i hi hpi
  exact ⟨m, hm, hmi, hfind, hmin⟩

/-- C6 witness: in the UPS table the service text
`"UPS NEXT DAY AIR SAVER"` contains both the key at position 0
(`"UPS NEXT DAY AIR"`) and the key at position 1 (its SAVER variant);
the matched rule is the earlier-defined one. -/
theorem claim_C6_first_rule_wins_witness :
    findServiceRule UPS_RULES "UPS NEXT DAY AIR SAVER" =
      some ("UPS NEXT DAY AIR", ⟨1, "10:30"⟩) ∧
    jsIncludes "UPS NEXT DAY AIR SAVER" "UPS NEXT DAY AIR SAVER" = true := by
  constructor
  · obtain ⟨m, hm, hmi, hfind, -⟩ :=
      claim_C6_first_rule_wins UPS_RULES "UPS NEXT DAY AIR SAVER" 0 1 (by decide) (by decide)
        (by decide) (by decide) (by decide)
    have hm0 : m = 0 := Nat.le_zero.mp hmi
    subst hm0
    exact hfind
  · decide

/-! ### C2: amount-based comparison (spec-modelled) -/

/-- The three classification outcomes of `specClassify`, for a
non-negative tolerance. -/
theorem specClassify_iffs (tol D : ℚ) (h0 : 0 ≤ tol) :
    (specClassify tol D = "Match – OK" ↔ |D| ≤ tol) ∧
    (specClassify tol D = "Overbilled" ↔ tol < D) ∧
    (specClassify tol D = "Underbilled – Review" ↔ D < -tol) := by
  rw [specClassify, qAbs_eq]
  by_cases h1 : |D| ≤ tol
  · rw [if_pos h1]
    refine ⟨iff_of_true rfl h1, ?_, ?_⟩
    · exact iff_of_false (by decide) (not_lt.mpr (abs_le.mp h1).2)
    · exact iff_of_false (by decide) (not_lt.mpr (abs_le.mp h1).1)
  · rw [if_neg h1]
    by_cases h2 : tol < D
    · rw [if_pos h2]
      refine ⟨iff_of_false (by decide) h1, iff_of_true rfl h2, ?_⟩
      refine iff_of_false (by decide) (not_lt.mpr ?_)
      linarith
    · rw [if_neg h2]
      have h3 : D < -tol := by
        rcases lt_abs.mp (not_le.mp h1) with h | h
        · exact absurd h h2
        · linarith
      exact ⟨iff_of_false (by decide) h1, iff_of_false (by decide) h2, iff_of_true rfl h3⟩

/-- C2: the amount-based comparison produces exactly one Discrepancy per
key in the union of the two indices (a key absent on one side counting
as amount 0 there, via `specAmtOf`), classifies by
`diff = carrierAmount − posAmount` against the 0.01 tolerance, and in
particular classifies a difference of exactly 0.01 as `"Match – OK"`.
The engine is modelled from the spec (§4.5): `src/` contains only the
set-membership comparison. -/
theorem claim_C2_amount_comparison :
    (mkRat 1 100 : ℚ) = 1 / 100 ∧
    (∀ (carrier pos : List (String × ℚ)) (t : String),
      (specCompareIndices carrier pos (mkRat 1 100)).countP (fun d => d.key == t) =
        if t ∈ carrier.map Prod.fst ++ pos.map Prod.fst then 1 else 0) ∧
    (∀ (carrier pos : List (String × ℚ)) (d : Discrepancy),
      d ∈ specCompareIndices carrier pos (mkRat 1 100) →
        d.carrierAmt = specAmtOf carrier d.key ∧
        d.posAmt = specAmtOf pos d.key ∧
        d.diff = specAmtOf carrier d.key - specAmtOf pos d.key ∧
        (d.note = "Match – OK" ↔ |d.diff| ≤ 1 / 100) ∧
        (d.note = "Overbilled" ↔ 1 / 100 < d.diff) ∧
        (d.note = "Underbilled – Review" ↔ d.diff < -(1 / 100))) ∧
    specClassify (mkRat 1 100) (mkRat 1 100) = "Match – OK" := by
  have htol : (mkRat 1 100 : ℚ) = 1 / 100 := by
    rw [Rat.mkRat_eq_div]
    norm_num
  refine ⟨htol, ?_, ?_, by decide⟩
  · intro carrier pos t
    have h1 : (specCompareIndices carrier pos (mkRat 1 100)).countP (fun d => d.key == t) =
        (distinctL (carrier.map Prod.fst ++ pos.map Prod.fst)).countP (fun u => u == t) := by
      simp only [specCompareIndices]
      rw [List.countP_map]
      rfl
    rw [h1]
    have h2 : (distinctL (carrier.map Prod.fst ++ pos.map Prod.fst)).countP (fun u => u == t) =
        (distinctL (carrier.map Prod.fst ++ pos.map Prod.fst)).count t := rfl
    rw [h2]
    by_cases hmem : t ∈ carrier.map Prod.fst ++ pos.map Prod.fst
    · rw [if_pos hmem]
      exact List.count_eq_one_of_mem (distinctL_nodup _) ((distinctL_mem _ _).mpr hmem)
    · rw [if_neg hmem]
      exact List.count_eq_zero_of_not_mem (fun hc => hmem ((distinctL_mem _ _).mp hc))
  · intro carrier pos d hd
    simp only [specCompareIndices, List.mem_map] at hd
    obtain ⟨u, _, rfl⟩ := hd
    dsimp only
    have hdiff : qAdd (specAmtOf carrier u) (qNeg (specAmtOf pos u)) =
        specAmtOf carrier u - specAmtOf pos u := by
      rw [qAdd_eq, qNeg_eq, sub_eq_add_neg]
    obtain ⟨hiff1, hiff2, hiff3⟩ :=
      specClassify_iffs (mkRat 1 100) (qAdd (specAmtOf carrier u) (qNeg (specAmtOf pos u)))
        (by rw [htol]; norm_num)
    rw [htol] at hiff1 hiff2 hiff3 ⊢
    exact ⟨rfl, rfl, hdiff, hiff1, hiff2, hiff3⟩

/-- C2 witness: two amounts differing by exactly 0.01 — carrier 10.01
vs POS 10.00 — produce the single discrepancy for their key, classified
`"Match – OK"`. -/
theorem claim_C2_amount_comparison_witness :
    (specCompareIndices [("K", mkRat 1001 100)] [("K", 10)] (mkRat 1 100)).countP
        (fun d => d.key == "K") = 1 ∧
    ((specCompareIndices [("K", mkRat 1001 100)] [("K", 10)] (mkRat 1 100)).headD
        ⟨"", 0, 0, 0, ""⟩).note = "Match – OK" := by
  constructor
  · rw [claim_C2_amount_comparison.2.1 [("K", mkRat 1001 100)] [("K", 10)] "K"]
    decide
  · have hmem :
        (specCompareIndices [("K", mkRat 1001 100)] [("K", 10)] (mkRat 1 100)).headD
          ⟨"", 0, 0, 0, ""⟩ ∈
        specCompareIndices [("K", mkRat 1001 100)] [("K", 10)] (mkRat 1 100) := by
      decide
    have h :=
      (claim_C2_amount_comparison.2.2.1 [("K", mkRat 1001 100)] [("K", 10)] _ hmem).2.2.2.1
    apply h.mpr
    have hd2 :
        ((specCompareIndices [("K", mkRat 1001 100)] [("K", 10)] (mkRat 1 100)).headD
          ⟨"", 0, 0, 0, ""⟩).diff = mkRat 1 100 := by
      decide
    rw [hd2, Rat.mkRat_eq_div, abs_le]
    constructor <;> norm_num

/-! ### C7: set-membership comparison -/

theorem contains_iff {α : Type} [BEq α] [LawfulBEq α] (l : List α) (a : α) :
    l.contains a = true ↔ a ∈ l :=
  List.elem_iff

theorem contains_eq_false {α : Type} [BEq α] [LawfulBEq α] (l : List α) (a : α)
    (h : a ∉ l) : l.contains a = false := by
  cases hb : l.contains a
  · rfl
  · exact absurd ((contains_iff _ _).mp hb) h

/-- The per-key item list of `resultsFor`. -/
theorem resultsFor_flatten (ck pk : List String) :
    resultsFor ck pk =
      ((distinctL (ck ++ pk)).map (fun t =>
        (if ck.contains t && !(pk.contains t) then
          [⟨t, "CarrierOnly", carrierOnlyNote⟩] else []) ++
        (if !(ck.contains t) && pk.contains t then
          [⟨t, "POSOnly", posOnlyNote⟩] else ([] : List AuditItem)))).flatten := by
  rw [resultsFor]
  generalize distinctL (ck ++ pk) = l
  suffices h : ∀ (l : List String) (init : List AuditItem),
      l.foldl (fun out t =>
        (out ++ (if ck.contains t && !(pk.contains t) then
          [⟨t, "CarrierOnly", carrierOnlyNote⟩] else [])) ++
        (if !(ck.contains t) && pk.contains t then
          ([⟨t, "POSOnly", posOnlyNote⟩] : List AuditItem) else [])) init =
      init ++ (l.map (fun t =>
        (if ck.contains t && !(pk.contains t) then
          [⟨t, "CarrierOnly", carrierOnlyNote⟩] else []) ++
        (if !(ck.contains t) && pk.contains t then
          ([⟨t, "POSOnly", posOnlyNote⟩] : List AuditItem) else []))).flatten by
    rw [h l []]
    rw [List.nil_append]
  intro l
  induction l with
  | nil => intro init; simp
  | cons a l ih =>
    intro init
    rw [List.foldl_cons, ih]
    simp only [List.map_cons, List.flatten_cons, List.append_assoc]

theorem countP_flatten_map {α β : Type} (g : α → List β) (p : β → Bool) (l : List α) :
    ((l.map g).flatten).countP p = (l.map (fun a => (g a).countP p)).sum := by
  induction l with
  | nil => simp
  | cons a l ih => simp [List.countP_append, ih]

theorem sum_if_single (t : String) (n : String → Nat) :
    ∀ l : List String, l.Nodup →
      (l.map (fun u => if u = t then n u else 0)).sum = if t ∈ l then n t else 0 := by
  intro l
  induction l with
  | nil => simp
  | cons a l ih =>
    intro hnd
    obtain ⟨ha, hnd'⟩ := List.nodup_cons.mp hnd
    by_cases hat : a = t
    · subst hat
      simp [ih hnd', ha]
    · simp only [List.map_cons, List.sum_cons, if_neg hat, ih hnd', Nat.zero_add]
      by_cases htl : t ∈ l
      · simp [htl, List.mem_cons, Ne.symm hat]
      · simp [htl, List.mem_cons, Ne.symm hat, hat]

/-- Membership description of the POS key set. -/
theorem mem_posKeySet (rows : List Row) (t : String) :
    t ∈ posKeySet rows ↔ (t ≠ "" ∧ ∃ r ∈ rows, posKeyOf r = t) := by
  simp only [posKeySet, distinctL_mem, List.mem_filter, List.mem_map]
  constructor
  · rintro ⟨⟨r, hr, rfl⟩, hne⟩
    refine ⟨by simpa using hne, r, hr, rfl⟩
  · rintro ⟨hne, r, hr, rfl⟩
    exact ⟨⟨r, hr, rfl⟩, by simpa using hne⟩

/-- Membership description of the carrier key set. -/
theorem mem_carrierKeySet (rows : List Row) (t : String) :
    t ∈ carrierKeySet rows ↔ (t ≠ "" ∧ ∃ r ∈ rows, carrierKeyOf r = t) := by
  simp only [carrierKeySet, distinctL_mem, List.mem_filter, List.mem_map]
  constructor
  · rintro ⟨⟨r, hr, rfl⟩, hne⟩
    refine ⟨by simpa using hne, r, hr, rfl⟩
  · rintro ⟨hne, r, hr, rfl⟩
    exact ⟨⟨r, hr, rfl⟩, by simpa using hne⟩

/-- C7: the set-membership comparison emits exactly one item per
tracking key present in exactly one of the two derived key sets —
CarrierOnly when only carrier-side, POSOnly when only POS-side — and
nothing for keys on both sides; consequently a CarrierOnly key has no
POS row resolving to it. -/
theorem claim_C7_set_membership :
    ∀ (crows prows : List Row) (t : String) (it : AuditItem),
      ((discrepancyResults crows prows).countP (fun x => x.tracking == t) =
        if (t ∈ carrierKeySet crows ∧ t ∉ posKeySet prows) ∨
            (t ∈ posKeySet prows ∧ t ∉ carrierKeySet crows) then 1 else 0) ∧
      (it ∈ discrepancyResults crows prows →
        (it.side = "CarrierOnly" ∨ it.side = "POSOnly") ∧
        (it.side = "CarrierOnly" →
          it.tracking ∈ carrierKeySet crows ∧ it.tracking ∉ posKeySet prows ∧
          ∀ r ∈ prows, posKeyOf r ≠ it.tracking) ∧
        (it.side = "POSOnly" →
          it.tracking ∈ posKeySet prows ∧ it.tracking ∉ carrierKeySet crows)) := by
  intro crows prows t it
  set ck := carrierKeySet crows with hck
  set pk := posKeySet prows with hpk
  constructor
  · rw [discrepancyResults, ← hck, ← hpk, resultsFor_flatten, countP_flatten_map]
    have hcount : ∀ u : String,
        ((if ck.contains u && !(pk.contains u) then
            [(⟨u, "CarrierOnly", carrierOnlyNote⟩ : AuditItem)] else []) ++
          (if !(ck.contains u) && pk.contains u then
            ([⟨u, "POSOnly", posOnlyNote⟩] : List AuditItem) else [])).countP (fun x => x.tracking == t) =
        if u = t then
          (if (ck.contains u && !(pk.contains u)) || (!(ck.contains u) && pk.contains u) then 1 else 0)
        else 0 := by
      intro u
      cases hb1 : ck.contains u <;> cases hb2 : pk.contains u <;> by_cases hut : u = t <;>
        simp [hb1, hb2, hut, List.countP_append, List.countP_cons]
    have hrw : (distinctL (ck ++ pk)).map (fun u =>
        ((if ck.contains u && !(pk.contains u) then
            [(⟨u, "CarrierOnly", carrierOnlyNote⟩ : AuditItem)] else []) ++
          (if !(ck.contains u) && pk.contains u then
            ([⟨u, "POSOnly", posOnlyNote⟩] : List AuditItem) else [])).countP (fun x => x.tracking == t)) =
        (distinctL (ck ++ pk)).map (fun u =>
          if u = t then
            (if (ck.contains u && !(pk.contains u)) || (!(ck.contains u) && pk.contains u) then 1 else 0)
          else 0) :=
      List.map_congr_left (fun u _ => hcount u)
    rw [hrw, sum_if_single t _ _ (distinctL_nodup _)]
    by_cases h1 : t ∈ ck <;> by_cases h2 : t ∈ pk
    · have e1 : ck.contains t = true := (contains_iff _ _).mpr h1
      have e2 : pk.contains t = true := (contains_iff _ _).mpr h2
      have hmem : t ∈ distinctL (ck ++ pk) :=
        (distinctL_mem _ _).mpr (List.mem_append.mpr (Or.inl h1))
      simp [hmem, e1, e2, h1, h2]
    · have e1 : ck.contains t = true := (contains_iff _ _).mpr h1
      have e2 : pk.contains t = false := contains_eq_false _ _ h2
      have hmem : t ∈ distinctL (ck ++ pk) :=
        (distinctL_mem _ _).mpr (List.mem_append.mpr (Or.inl h1))
      simp [hmem, e1, e2, h1, h2]
    · have e1 : ck.contains t = false := contains_eq_false _ _ h1
      have e2 : pk.contains t = true := (contains_iff _ _).mpr h2
      have hmem : t ∈ distinctL (ck ++ pk) :=
        (distinctL_mem _ _).mpr (List.mem_append.mpr (Or.inr h2))
      simp [hmem, e1, e2, h1, h2]
    · have hnm : t ∉ distinctL (ck ++ pk) := by
        intro hc
        rcases List.mem_append.mp ((distinctL_mem _ _).mp hc) with h | h
        · exact h1 h
        · exact h2 h
      simp [hnm, h1, h2]
  · intro hmem
    rw [discrepancyResults, ← hck, ← hpk, resultsFor_flatten] at hmem
    simp only [List.mem_flatten, List.mem_map] at hmem
    obtain ⟨L, ⟨u, hu, rfl⟩, hit⟩ := hmem
    rw [List.mem_append] at hit
    have hcases :
        (it = ⟨u, "CarrierOnly", carrierOnlyNote⟩ ∧ u ∈ ck ∧ u ∉ pk) ∨
        (it = ⟨u, "POSOnly", posOnlyNote⟩ ∧ u ∈ pk ∧ u ∉ ck) := by
      rcases hit with h | h
      · by_cases hc : (ck.contains u && !(pk.contains u)) = true
        · rw [if_pos hc] at h
          rcases List.mem_singleton.mp h with rfl
          obtain ⟨hc1, hc2⟩ : ck.contains u = true ∧ pk.contains u = false := by
            simpa using hc
          refine Or.inl ⟨rfl, (contains_iff ck u).mp hc1, fun hp => ?_⟩
          rw [← contains_iff pk u, hc2] at hp
          cases hp
        · rw [if_neg hc] at h
          cases h
      · by_cases hc : (!(ck.contains u) && pk.contains u) = true
        · rw [if_pos hc] at h
          rcases List.mem_singleton.mp h with rfl
          obtain ⟨hc1, hc2⟩ : ck.contains u = false ∧ pk.contains u = true := by
            simpa using hc
          refine Or.inr ⟨rfl, (contains_iff pk u).mp hc2, fun hp => ?_⟩
          rw [← contains_iff ck u, hc1] at hp
          cases hp
        · rw [if_neg hc] at h
          cases h
    rcases hcases with ⟨rfl, hin, hout⟩ | ⟨rfl, hin, hout⟩
    · refine ⟨Or.inl rfl, fun _ => ⟨hin, hout, ?_⟩,
        fun hside => absurd hside (show ¬("CarrierOnly" : String) = "POSOnly" by decide)⟩
      intro r hr heq
      have hne : u ≠ "" := ((mem_carrierKeySet crows u).mp hin).1
      exact hout ((mem_posKeySet prows u).mpr ⟨hne, r, hr, heq⟩)
    · exact ⟨Or.inr rfl,
        fun hside => absurd hside (show ¬("POSOnly" : String) = "CarrierOnly" by decide),
        fun _ => ⟨hin, hout⟩⟩

/-- C7 witness: with one carrier row keyed `"A"` and one POS row keyed
`"B"`, key `"A"` receives exactly one item, and the CarrierOnly item
for `"A"` has no POS row resolving to it. -/
theorem claim_C7_set_membership_witness :
    ((discrepancyResults [[("Tracking Number", "A")]] [[("Tracking Number", "B")]]).countP
      (fun x => x.tracking == "A") = 1) ∧
    (∀ r ∈ ([[("Tracking Number", "B")]] : List Row),
      posKeyOf r ≠ "A") := by
  constructor
  · rw [(claim_C7_set_membership [[("Tracking Number", "A")]] [[("Tracking Number", "B")]] "A"
      ⟨"", "", ""⟩).1]
    rw [if_pos]
    exact Or.inl ⟨by decide, by decide⟩
  · have h :=
      ((claim_C7_set_membership [[("Tracking Number", "A")]] [[("Tracking Number", "B")]] "A"
        ⟨"A", "CarrierOnly", carrierOnlyNote⟩).2 (by decide)).2.1 rfl
    exact h.2.2

/-! ### C10: POS index last-write-wins -/

theorem lookup_map_update_ne {β : Type} (m : List (String × β)) (t t' : String)
    (f : β → β) (h : t' ≠ t) :
    List.lookup t' (m.map (fun p => if p.1 = t then (p.1, f p.2) else p)) =
      List.lookup t' m := by
  induction m with
  | nil => simp
  | cons p m ih =>
    rcases p with ⟨k, v⟩
    by_cases hk : k = t
    · subst hk
      have hbeq : (t' == k) = false := beq_eq_false_iff_ne.mpr h
      have hhd : (if ((k, v) : String × β).1 = k then (((k, v) : String × β).1, f ((k, v) : String × β).2) else ((k, v) : String × β)) = (k, f v) := by
        simp
      rw [List.map_cons, hhd, List.lookup, List.lookup]
      rw [hbeq]
      exact ih
    · simp only [List.map_cons]
      rw [if_neg (hk : ¬(k, v).1 = t)]
      rw [List.lookup, List.lookup]
      cases hbeq : t' == k
      · exact ih
      · rfl

theorem lookup_append_singleton_ne {β : Type} (m : List (String × β)) (t t' : String)
    (e : β) (h : t' ≠ t) :
    List.lookup t' (m ++ [(t, e)]) = List.lookup t' m := by
  induction m with
  | nil =>
    have hbeq : (t' == t) = false := beq_eq_false_iff_ne.mpr h
    simp [List.lookup, hbeq]
  | cons p m ih =>
    rcases p with ⟨k, v⟩
    rw [List.cons_append, List.lookup, List.lookup]
    cases hbeq : t' == k
    · exact ih
    · rfl

theorem lookup_posUpsert_self (idx : List (String × PosEntry)) (t : String) (e : PosEntry) :
    List.lookup t (posUpsert idx t e) = some e := by
  rw [posUpsert]
  by_cases hp : (List.lookup t idx).isSome
  · rw [if_pos hp]
    have h := lookup_map_update idx t (fun _ => e)
    rw [h]
    obtain ⟨v, hv⟩ := Option.isSome_iff_exists.mp hp
    rw [hv]
    rfl
  · rw [if_neg hp]
    rw [lookup_append_right _ _ _ (Option.not_isSome_iff_eq_none.mp hp)]
    exact lookup_singleton_self t e

theorem lookup_posUpsert_ne (idx : List (String × PosEntry)) (t t' : String) (e : PosEntry)
    (h : t' ≠ t) :
    List.lookup t' (posUpsert idx t e) = List.lookup t' idx := by
  rw [posUpsert]
  by_cases hp : (List.lookup t idx).isSome
  · rw [if_pos hp]
    exact lookup_map_update_ne idx t t' (fun _ => e) h
  · rw [if_neg hp]
    exact lookup_append_singleton_ne idx t t' e h

theorem buildPosIndex_append_skip (rows : List Row) (r : Row)
    (h : getVal r POS_KEYS = "") :
    buildPosIndex (rows ++ [r]) = buildPosIndex rows := by
  rw [buildPosIndex, buildPosIndex, List.foldl_append]
  simp [h]

theorem buildPosIndex_append_upsert (rows : List Row) (r : Row)
    (h : ¬ getVal r POS_KEYS = "") :
    buildPosIndex (rows ++ [r]) =
      posUpsert (buildPosIndex rows) (getVal r POS_KEYS) (rowPosEntry r) := by
  rw [buildPosIndex, buildPosIndex, List.foldl_append]
  simp [h]

theorem rowIsRes_foldl (r : Row) :
    ∀ (ks : List String) (acc : Option Bool),
      ks.foldl
        (fun acc k =>
          match List.lookup k r with
          | none => acc
          | some v =>
            match interpAddr v with
            | some b => some b
            | none => acc)
        acc =
      match (ks.filterMap (fun k => (List.lookup k r).bind interpAddr)).getLast? with
      | some b => some b
      | none => acc := by
  intro ks
  induction ks with
  | nil => intro acc; simp
  | cons k l ih =>
    intro acc
    rw [List.foldl_cons, ih]
    cases hl : List.lookup k r with
    | none => simp [List.filterMap_cons, hl]
    | some v =>
      cases hi : interpAddr v with
      | none => simp [List.filterMap_cons, hl, hi]
      | some b =>
        cases hfl : l.filterMap (fun k => (List.lookup k r).bind interpAddr) with
        | nil => simp [List.filterMap_cons, hl, hi, hfl]
        | cons x xs =>
          obtain ⟨y, hy⟩ : ∃ y, (x :: xs).getLast? = some y := by
            cases hgl : (x :: xs).getLast? with
            | none => exact absurd hgl (by simp)
            | some y => exact ⟨y, rfl⟩
          simp [List.filterMap_cons, hl, hi, hfl, hy, List.getLast?_cons_cons]

/-- C10: the POS index is last-write-wins — the entry for a tracking
key is derived from the last row carrying that key — and within one
row the residential flag is the last interpretable value among the
recognised address-type columns.  (This is the opposite convention to
the first-match-wins header resolution of `getVal`.) -/
theorem claim_C10_pos_index_last_write :
    ∀ (rows : List Row) (t : String) (r : Row),
      (t ≠ "" → List.lookup t (buildPosIndex rows) =
        ((rows.filter (fun x => posKeyOf x == t)).getLast?).map rowPosEntry) ∧
      rowIsRes r =
        (POS_ADDR_KEYS.filterMap (fun k => (List.lookup k r).bind interpAddr)).getLast? := by
  intro rows t r
  constructor
  · intro ht
    induction rows using List.reverseRecOn with
    | nil => simp [buildPosIndex]
    | append_singleton rs x ih =>
      rw [List.filter_append]
      by_cases hu : getVal x POS_KEYS = ""
      · have hne : (posKeyOf x == t) = false := by
          rw [posKeyOf, hu]
          exact beq_eq_false_iff_ne.mpr (fun he => ht he.symm)
        have hfl : List.filter (fun y => posKeyOf y == t) [x] = [] := by
          simp [hne]
        rw [buildPosIndex_append_skip rs x hu, hfl, List.append_nil]
        exact ih
      · by_cases hut : getVal x POS_KEYS = t
        · have heq : (posKeyOf x == t) = true := by
            rw [posKeyOf, hut]
            exact beq_self_eq_true t
          have hfl : List.filter (fun y => posKeyOf y == t) [x] = [x] := by
            simp [heq]
          rw [buildPosIndex_append_upsert rs x hu, hut, lookup_posUpsert_self, hfl,
            List.getLast?_concat]
          rfl
        · have hne : (posKeyOf x == t) = false := by
            rw [posKeyOf]
            exact beq_eq_false_iff_ne.mpr hut
          have hfl : List.filter (fun y => posKeyOf y == t) [x] = [] := by
            simp [hne]
          rw [buildPosIndex_append_upsert rs x hu, hfl, List.append_nil,
            lookup_posUpsert_ne _ _ _ _ (fun he => hut he.symm)]
          exact ih
  · rw [rowIsRes]
    have h2 := rowIsRes_foldl r POS_ADDR_KEYS none
    refine Eq.trans h2 ?_
    cases hg : (POS_ADDR_KEYS.filterMap (fun k => (List.lookup k r).bind interpAddr)).getLast? <;>
      simp [hg]

/-- C10 witness: two POS rows with the same tracking key — the first
marking residential, the second without an address column — index to
the second row's entry (residential flag `none`). -/
theorem claim_C10_pos_index_last_write_witness :
    List.lookup "T1" (buildPosIndex
      [[("Tracking Number", "T1"), ("Address Type", "res")],
       [("Tracking Number", "T1")]]) =
      ((([[("Tracking Number", "T1"), ("Address Type", "res")],
          [("Tracking Number", "T1")]] : List Row).filter
        (fun x => posKeyOf x == "T1")).getLast?).map rowPosEntry :=
  (claim_C10_pos_index_last_write
    [[("Tracking Number", "T1"), ("Address Type", "res")], [("Tracking Number", "T1")]]
    "T1" []).1 (by decide)

/-- C4: for a carrier row whose tracking number, service key, promise
rule, ship date and POD date/time all resolve and parse, a late-delivery
record is emitted if and only if the delivered timestamp is strictly
after the promised-by timestamp, and the promised-by timestamp is the
ship day advanced by the rule's business-day count (weekends skipped by
`addBusinessDaysD`) at the rule's cutoff time of day; equality of the
two timestamps emits nothing, and a row missing any input yields `none`
rather than an error, `auditOneRow` being total. -/
theorem claim_C4_late_strict_iff (C : ColsCfg) (rules : List (String × SvcRule))
    (lbl : String) (pos : Option (List (String × PosEntry))) (r : Row)
    (kr : String × SvcRule) (shipped delivered : ℤ)
    (ht : ¬ getVal r C.tracking = "")
    (hk : ¬ jsUpper (getVal r C.service) = "")
    (hr : findServiceRule rules (jsUpper (getVal r C.service)) = some kr)
    (hs : ¬ getVal r C.shipDate = "")
    (hp : ¬ (podResolve C pos r).1 = "")
    (hsd : tryParseDate (getVal r C.shipDate) = some shipped)
    (hdd : combineDateTime (podResolve C pos r).1 (podResolve C pos r).2
      = some delivered) :
    ((auditOneRow C rules lbl pos r).isSome ↔ promisedBy shipped kr.2 < delivered)
      ∧ promisedBy shipped kr.2
          = addBusinessDaysD (Int.fdiv shipped msPerDay) kr.2.days * msPerDay
              + parseCutoffMs kr.2.cutoff := by
  refine ⟨?_, rfl⟩
  rw [auditOneRow]
  simp only [ht, hk, hr, hs, hp, hsd, hdd, decide_False, Bool.or_self, Bool.false_eq_true,
    if_false, ite_false]
  by_cases hlt : promisedBy shipped kr.2 < delivered <;> simp [hlt]

/-- Witness for C4: ship Friday 1/2/2026 under "UPS NEXT DAY AIR"
(1 business day, cutoff 10:30) promises Monday 1/5/2026 10:30
(1767609000000 ms); delivery Monday 11:00 (1767610800000 ms) is
strictly after it, so the record is emitted. -/
theorem claim_C4_late_strict_iff_witness :
    ((auditOneRow UPS_COLS UPS_RULES "UPS" none
        [("Tracking Number", "1Z99"), ("Service Level", "UPS NEXT DAY AIR"),
         ("Pickup Date", "1/2/2026"), ("Delivery Date", "1/5/2026"),
         ("Delivery Time", "11:00")]).isSome
      ↔ promisedBy 1767312000000 (("UPS NEXT DAY AIR", ⟨1, "10:30"⟩) : String × SvcRule).2
          < 1767610800000)
    ∧ promisedBy 1767312000000 (("UPS NEXT DAY AIR", ⟨1, "10:30"⟩) : String × SvcRule).2
        = addBusinessDaysD (Int.fdiv 1767312000000 msPerDay)
              ((("UPS NEXT DAY AIR", ⟨1, "10:30"⟩) : String × SvcRule)).2.days * msPerDay
            + parseCutoffMs (("UPS NEXT DAY AIR", ⟨1, "10:30"⟩) : String × SvcRule).2.cutoff :=
  claim_C4_late_strict_iff UPS_COLS UPS_RULES "UPS" none
    [("Tracking Number", "1Z99"), ("Service Level", "UPS NEXT DAY AIR"),
     ("Pickup Date", "1/2/2026"), ("Delivery Date", "1/5/2026"),
     ("Delivery Time", "11:00")]
    ("UPS NEXT DAY AIR", ⟨1, "10:30"⟩) 1767312000000 1767610800000
    (by decide) (by decide) (by decide) (by decide) (by decide) (by decide) (by decide)

theorem lookup_tdUpsert_self (m : List (String × TrackData)) (t : String)
    (f : TrackData → TrackData) :
    List.lookup t (tdUpsert m t f) = some (f ((List.lookup t m).getD emptyTD)) := by
  rw [tdUpsert]
  by_cases hp : (List.lookup t m).isSome
  · rw [if_pos hp]
    rw [lookup_map_update m t f]
    obtain ⟨v, hv⟩ := Option.isSome_iff_exists.mp hp
    rw [hv]
    rfl
  · rw [if_neg hp]
    rw [lookup_append_right _ _ _ (Option.not_isSome_iff_eq_none.mp hp)]
    rw [Option.not_isSome_iff_eq_none.mp hp]
    exact lookup_singleton_self t (f emptyTD)

theorem lookup_tdUpsert_ne (m : List (String × TrackData)) (t t' : String)
    (f : TrackData → TrackData) (h : t' ≠ t) :
    List.lookup t' (tdUpsert m t f) = List.lookup t' m := by
  rw [tdUpsert]
  by_cases hp : (List.lookup t m).isSome
  · rw [if_pos hp]
    exact lookup_map_update_ne m t t' f h
  · rw [if_neg hp]
    exact lookup_append_singleton_ne m t t' (f emptyTD) h

theorem processRow_fst (label : String) (tkeys : List String)
    (pairs : List (String × String)) (pos : Option (List (String × PosEntry)))
    (st : List (String × TrackData)) (r : Row) :
    (processRow label tkeys pairs pos st r).1 =
      if getVal r tkeys = "" then st
      else
        let st1 := tdUpsert st (getVal r tkeys) (fun td =>
          { td with
            transAmt := if td.transAmt = 0 then toNumber (transCand r) else td.transAmt
            fuelAmt := qAdd td.fuelAmt (toNumber (fuelCand r)) })
        if pairs.isEmpty then st1
        else tdUpsert st1 (getVal r tkeys) (fun td =>
          { td with items := td.items ++
              (pairEmits pairs pos (getVal r tkeys) label r).1 }) := by
  rw [processRow]
  by_cases h0 : getVal r tkeys = ""
  · simp [h0]
  · by_cases hp : pairs.isEmpty
    · simp only [h0, hp, if_false, ite_false, if_true, ite_true]
      split_ifs <;> rfl
    · simp [h0, hp]

theorem fuelAt_tdUpsert_items (m : List (String × TrackData)) (s t : String)
    (its : List (String × ℚ)) :
    fuelAt (tdUpsert m s (fun td => { td with items := td.items ++ its })) t =
      fuelAt m t := by
  by_cases hm : t = s
  · subst hm
    rw [fuelAt, lookup_tdUpsert_self]
    rfl
  · rw [fuelAt, fuelAt, lookup_tdUpsert_ne _ _ _ _ hm]

theorem transAt_tdUpsert_items (m : List (String × TrackData)) (s t : String)
    (its : List (String × ℚ)) :
    transAt (tdUpsert m s (fun td => { td with items := td.items ++ its })) t =
      transAt m t := by
  by_cases hm : t = s
  · subst hm
    rw [transAt, lookup_tdUpsert_self]
    rfl
  · rw [transAt, transAt, lookup_tdUpsert_ne _ _ _ _ hm]

theorem processRow_fuelAt (label : String) (tkeys : List String)
    (pairs : List (String × String)) (pos : Option (List (String × PosEntry)))
    (st : List (String × TrackData)) (r : Row) (t : String) (ht : ¬ t = "") :
    fuelAt (processRow label tkeys pairs pos st r).1 t =
      if getVal r tkeys = t then qAdd (fuelAt st t) (toNumber (fuelCand r))
      else fuelAt st t := by
  rw [processRow_fst]
  by_cases h0 : getVal r tkeys = ""
  · have hne : ¬ getVal r tkeys = t := fun he => ht (he.symm.trans h0)
    have hne2 : ¬ ("" : String) = t := fun he => ht he.symm
    simp [h0, hne, hne2]
  · simp only [h0, if_false, ite_false]
    have hcore : fuelAt (tdUpsert st (getVal r tkeys) (fun td =>
        { td with
          transAmt := if td.transAmt = 0 then toNumber (transCand r) else td.transAmt
          fuelAmt := qAdd td.fuelAmt (toNumber (fuelCand r)) })) t =
        if getVal r tkeys = t then qAdd (fuelAt st t) (toNumber (fuelCand r))
        else fuelAt st t := by
      by_cases hm : getVal r tkeys = t
      · subst hm
        rw [if_pos rfl, fuelAt, lookup_tdUpsert_self]
        rfl
      · rw [if_neg hm, fuelAt, fuelAt,
          lookup_tdUpsert_ne _ _ _ _ (fun he => hm he.symm)]
    by_cases hp : pairs.isEmpty = true
    · rw [if_pos hp]
      exact hcore
    · rw [if_neg hp]
      rw [fuelAt_tdUpsert_items]
      exact hcore

theorem processRow_transAt (label : String) (tkeys : List String)
    (pairs : List (String × String)) (pos : Option (List (String × PosEntry)))
    (st : List (String × TrackData)) (r : Row) (t : String) (ht : ¬ t = "") :
    transAt (processRow label tkeys pairs pos st r).1 t =
      if getVal r tkeys = t then
        (if transAt st t = 0 then toNumber (transCand r) else transAt st t)
      else transAt st t := by
  rw [processRow_fst]
  by_cases h0 : getVal r tkeys = ""
  · have hne : ¬ getVal r tkeys = t := fun he => ht (he.symm.trans h0)
    have hne2 : ¬ ("" : String) = t := fun he => ht he.symm
    simp [h0, hne, hne2]
  · simp only [h0, if_false, ite_false]
    have hcore : transAt (tdUpsert st (getVal r tkeys) (fun td =>
        { td with
          transAmt := if td.transAmt = 0 then toNumber (transCand r) else td.transAmt
          fuelAmt := qAdd td.fuelAmt (toNumber (fuelCand r)) })) t =
        if getVal r tkeys = t then
          (if transAt st t = 0 then toNumber (transCand r) else transAt st t)
        else transAt st t := by
      by_cases hm : getVal r tkeys = t
      · subst hm
        rw [if_pos rfl, transAt, lookup_tdUpsert_self]
        rfl
      · rw [if_neg hm, transAt, transAt,
          lookup_tdUpsert_ne _ _ _ _ (fun he => hm he.symm)]
    by_cases hp : pairs.isEmpty = true
    · rw [if_pos hp]
      exact hcore
    · rw [if_neg hp]
      rw [transAt_tdUpsert_items]
      exact hcore

theorem phase1_fuelAt (label : String) (tkeys : List String)
    (pairs : List (String × String)) (pos : Option (List (String × PosEntry)))
    (t : String) (ht : ¬ t = "") (rows : List Row) :
    ∀ st, fuelAt (phase1 label tkeys pairs pos st rows).1 t =
      fuelAt st t +
        ((rows.filter (fun r => getVal r tkeys = t)).map
          (fun r => toNumber (fuelCand r))).sum := by
  induction rows with
  | nil => intro st; simp [phase1]
  | cons r rs ih =>
    intro st
    rw [phase1]
    simp only
    rw [ih, processRow_fuelAt label tkeys pairs pos st r t ht]
    by_cases hm : getVal r tkeys = t
    · simp [hm, qAdd_eq, List.filter_cons]
      ring
    · simp [hm, List.filter_cons]

theorem phase1_transAt (label : String) (tkeys : List String)
    (pairs : List (String × String)) (pos : Option (List (String × PosEntry)))
    (t : String) (ht : ¬ t = "") (rows : List Row) :
    ∀ st, transAt (phase1 label tkeys pairs pos st rows).1 t =
      if transAt st t = 0 then
        firstNonZero ((rows.filter (fun r => getVal r tkeys = t)).map
          (fun r => toNumber (transCand r)))
      else transAt st t := by
  induction rows with
  | nil =>
    intro st
    by_cases h : transAt st t = 0 <;> simp [phase1, h, firstNonZero]
  | cons r rs ih =>
    intro st
    rw [phase1]
    simp only
    rw [ih, processRow_transAt label tkeys pairs pos st r t ht]
    by_cases hm : getVal r tkeys = t
    · by_cases h0 : transAt st t = 0
      · by_cases hx : toNumber (transCand r) = 0
        · simp [hm, h0, hx, List.filter_cons, firstNonZero]
        · simp [hm, h0, hx, List.filter_cons, firstNonZero]
      · simp [hm, h0, List.filter_cons]
    · simp [hm, List.filter_cons]

theorem billingState_fuelAt (rows : List Row) (label : String) (tkeys : List String)
    (pos : Option (List (String × PosEntry))) (t : String) (ht : ¬ t = "") :
    fuelAt (billingState rows label tkeys pos) t =
      ((rows.filter (fun r => getVal r tkeys = t)).map
        (fun r => toNumber (fuelCand r))).sum := by
  cases rows with
  | nil => simp [billingState, fuelAt, emptyTD]
  | cons r0 rs =>
    rw [billingState]
    rw [phase1_fuelAt label tkeys _ pos t ht]
    simp [fuelAt, emptyTD]

theorem billingState_transAt (rows : List Row) (label : String) (tkeys : List String)
    (pos : Option (List (String × PosEntry))) (t : String) (ht : ¬ t = "") :
    transAt (billingState rows label tkeys pos) t =
      firstNonZero ((rows.filter (fun r => getVal r tkeys = t)).map
        (fun r => toNumber (transCand r))) := by
  cases rows with
  | nil => simp [billingState, transAt, emptyTD, firstNonZero]
  | cons r0 rs =>
    rw [billingState]
    rw [phase1_transAt label tkeys _ pos t ht]
    simp [transAt, emptyTD]

/-- C1 counterexample: two rows of one source share tracking key "1Z1"
with transportation charges 10 and 5; the recorded transportation
amount is 10 (the first non-zero value), not the sum 15, and reversing
the row order changes it to 5 — the aggregated transportation amount is
first-non-zero-wins and order-dependent, contradicting the claimed
unconditional additive, order-independent aggregation. -/
theorem claim_C1_counterexample :
    transAt (billingState
      [[("Tracking Number", "1Z1"), ("Transportation Charges", "10")],
       [("Tracking Number", "1Z1"), ("Transportation Charges", "5")]]
      "UPS" ["Tracking Number"] none) "1Z1" = 10
    ∧ qAdd
        (toNumber (transCand [("Tracking Number", "1Z1"), ("Transportation Charges", "10")]))
        (toNumber (transCand [("Tracking Number", "1Z1"), ("Transportation Charges", "5")]))
        = 15
    ∧ transAt (billingState
      [[("Tracking Number", "1Z1"), ("Transportation Charges", "5")],
       [("Tracking Number", "1Z1"), ("Transportation Charges", "10")]]
      "UPS" ["Tracking Number"] none) "1Z1" = 5 := by decide

/-- C1 (amended): for rows of one source and a non-empty tracking key,
the aggregated fuel amount is the exact sum of every matching row's
parsed fuel value — additive and invariant under row permutation —
while the aggregated transportation amount is the first non-zero parsed
transportation value in row order, not a sum. -/
theorem claim_C1_aggregation (rows rows' : List Row) (label : String)
    (tkeys : List String) (pos : Option (List (String × PosEntry))) (t : String)
    (ht : ¬ t = "") (hperm : rows.Perm rows') :
    fuelAt (billingState rows label tkeys pos) t =
        ((rows.filter (fun r => getVal r tkeys = t)).map
          (fun r => toNumber (fuelCand r))).sum
      ∧ fuelAt (billingState rows' label tkeys pos) t =
          fuelAt (billingState rows label tkeys pos) t
      ∧ transAt (billingState rows label tkeys pos) t =
          firstNonZero ((rows.filter (fun r => getVal r tkeys = t)).map
            (fun r => toNumber (transCand r))) := by
  refine ⟨billingState_fuelAt rows label tkeys pos t ht, ?_,
    billingState_transAt rows label tkeys pos t ht⟩
  rw [billingState_fuelAt rows label tkeys pos t ht,
    billingState_fuelAt rows' label tkeys pos t ht]
  exact List.Perm.sum_eq
    (List.Perm.map (fun r => toNumber (fuelCand r))
      (List.Perm.filter (fun r => decide (getVal r tkeys = t)) hperm.symm))

/-- Witness for C1: rows with fuel surcharges 3 and 4 under key "1Z1"
aggregate to fuel 7 in either order, and the transportation amount of
the pair (0 then 7) resolves to the first non-zero value 7. -/
theorem claim_C1_aggregation_witness :
    fuelAt (billingState
        [[("Tracking Number", "1Z1"), ("Fuel Surcharge", "3")],
         [("Tracking Number", "1Z1"), ("Fuel Surcharge", "4"), ("Transportation Charges", "7")]]
        "UPS" ["Tracking Number"] none) "1Z1" =
      (([[("Tracking Number", "1Z1"), ("Fuel Surcharge", "3")],
         [("Tracking Number", "1Z1"), ("Fuel Surcharge", "4"), ("Transportation Charges", "7")]].filter
          (fun r => getVal r ["Tracking Number"] = "1Z1")).map
        (fun r => toNumber (fuelCand r))).sum
    ∧ fuelAt (billingState
        [[("Tracking Number", "1Z1"), ("Fuel Surcharge", "4"), ("Transportation Charges", "7")],
         [("Tracking Number", "1Z1"), ("Fuel Surcharge", "3")]]
        "UPS" ["Tracking Number"] none) "1Z1" =
      fuelAt (billingState
        [[("Tracking Number", "1Z1"), ("Fuel Surcharge", "3")],
         [("Tracking Number", "1Z1"), ("Fuel Surcharge", "4"), ("Transportation Charges", "7")]]
        "UPS" ["Tracking Number"] none) "1Z1"
    ∧ transAt (billingState
        [[("Tracking Number", "1Z1"), ("Fuel Surcharge", "3")],
         [("Tracking Number", "1Z1"), ("Fuel Surcharge", "4"), ("Transportation Charges", "7")]]
        "UPS" ["Tracking Number"] none) "1Z1" =
      firstNonZero
        (([[("Tracking Number", "1Z1"), ("Fuel Surcharge", "3")],
           [("Tracking Number", "1Z1"), ("Fuel Surcharge", "4"), ("Transportation Charges", "7")]].filter
            (fun r => getVal r ["Tracking Number"] = "1Z1")).map
          (fun r => toNumber (transCand r))) :=
  claim_C1_aggregation
    [[("Tracking Number", "1Z1"), ("Fuel Surcharge", "3")],
     [("Tracking Number", "1Z1"), ("Fuel Surcharge", "4"), ("Transportation Charges", "7")]]
    [[("Tracking Number", "1Z1"), ("Fuel Surcharge", "4"), ("Transportation Charges", "7")],
     [("Tracking Number", "1Z1"), ("Fuel Surcharge", "3")]]
    "UPS" ["Tracking Number"] none "1Z1" (by decide) (List.Perm.swap _ _ _)

theorem chStarts_append (p s : List Char) : chStarts (p ++ s) p = true := by
  induction p with
  | nil => simp [chStarts]
  | cons c cs ih => simp [chStarts, ih]

theorem isFuelNote_mkFuelNote (pct : ℚ) : isFuelNote (mkFuelNote pct) = true := by
  rw [isFuelNote, mkFuelNote]
  have h : ("Fuel surcharge anomaly (" ++ toFixedStr 1 (qMul pct (mkRat 100 1)) ++
      "% of transportation)").toList =
      "Fuel surcharge anomaly (".toList ++
        ((toFixedStr 1 (qMul pct (mkRat 100 1))).toList ++ "% of transportation)".toList) := by
    simp [String.toList, String.data_append]
  rw [h]
  exact chStarts_append _ _

theorem isFuelNote_keyword (lab : String) (h : lab ∈ SURCHARGE_KEYWORDS.map Prod.snd)
    (s : String) (hs : s = "" ∨ s = resSuffix) :
    isFuelNote (lab ++ s) = false ∧ ¬ (lab ++ s) = dupNote := by
  simp only [SURCHARGE_KEYWORDS, List.map_cons, List.map_nil, List.mem_cons,
    List.not_mem_nil, or_false] at h
  rcases hs with rfl | rfl <;>
    rcases h with rfl | rfl | rfl | rfl | rfl | rfl | rfl <;> exact ⟨by decide, by decide⟩

theorem isFuelNote_dupNote : isFuelNote dupNote = false := by decide

theorem foldl_issue_inv {σ : Type} (P : ChargeIssue → Prop)
    (f : (List (String × ℚ) × List ChargeIssue) → σ → (List (String × ℚ) × List ChargeIssue))
    (hf : ∀ acc x i, i ∈ (f acc x).2 → i ∈ acc.2 ∨ P i) :
    ∀ (l : List σ) (acc : List (String × ℚ) × List ChargeIssue) (i : ChargeIssue),
      i ∈ (l.foldl f acc).2 → i ∈ acc.2 ∨ P i := by
  intro l
  induction l with
  | nil => intro acc i h; exact Or.inl h
  | cons x xs ih =>
    intro acc i h
    rcases ih (f acc x) i h with h' | h'
    · exact hf acc x i h'
    · exact Or.inr h'

theorem pairEmits_notes (pairs : List (String × String))
    (pos : Option (List (String × PosEntry))) (tracking label : String) (r : Row) :
    ∀ i ∈ (pairEmits pairs pos tracking label r).2,
      isFuelNote i.note = false ∧ ¬ i.note = dupNote := by
  intro i hi
  rw [pairEmits.eq_def] at hi
  have hs := foldl_issue_inv
    (fun j => isFuelNote j.note = false ∧ ¬ j.note = dupNote) _ ?_ pairs ([], []) i hi
  · rcases hs with h | h
    · simp at h
    · exact h
  · intro acc pr j hj
    by_cases hd : jsTrim ((List.lookup pr.1 r).getD "") = "" ∨ toNumber (List.lookup pr.2 r) = 0
    · left
      simp only at hj
      rw [if_pos ?_] at hj
      · exact hj
      · rcases hd with h | h <;> simp [h]
    · have hd1 : ¬ jsTrim ((List.lookup pr.1 r).getD "") = "" := fun h => hd (Or.inl h)
      have hd2 : ¬ toNumber (List.lookup pr.2 r) = 0 := fun h => hd (Or.inr h)
      simp only [hd1, hd2, decide_False, Bool.or_self, Bool.false_eq_true, if_false,
        ite_false] at hj
      rcases List.mem_append.mp hj with hj' | hj'
      · exact Or.inl hj'
      · refine Or.inr ?_
        rcases hfind : SURCHARGE_KEYWORDS.find?
            (fun s => s.1 (jsTrim ((List.lookup pr.1 r).getD ""))) with _ | hit
        · rw [hfind] at hj'
          simp at hj'
        · rw [hfind] at hj'
          simp only [List.mem_singleton] at hj'
          subst hj'
          have hlab : hit.2 ∈ SURCHARGE_KEYWORDS.map Prod.snd :=
            List.mem_map_of_mem Prod.snd (List.mem_of_find?_eq_some hfind)
          simp only
          split_ifs with hk
          · cases pos with
            | none => exact isFuelNote_keyword hit.2 hlab "" (Or.inl rfl)
            | some idx =>
              dsimp only
              cases hlook : List.lookup tracking idx with
              | none =>
                exact isFuelNote_keyword hit.2 hlab "" (Or.inl rfl)
              | some p =>
                dsimp only
                split_ifs with hres
                · exact isFuelNote_keyword hit.2 hlab resSuffix (Or.inr rfl)
                · exact isFuelNote_keyword hit.2 hlab "" (Or.inl rfl)
          · exact isFuelNote_keyword hit.2 hlab "" (Or.inl rfl)



theorem phase1_issue_inv (label : String) (tkeys : List String)
    (pairs : List (String × String)) (pos : Option (List (String × PosEntry)))
    (P : ChargeIssue → Prop)
    (hP : ∀ st r i, i ∈ (processRow label tkeys pairs pos st r).2 → P i) :
    ∀ (rows : List Row) (st : List (String × TrackData)) (i : ChargeIssue),
      i ∈ (phase1 label tkeys pairs pos st rows).2 → P i := by
  intro rows
  induction rows with
  | nil => intro st i h; simp [phase1] at h
  | cons r rs ih =>
    intro st i h
    simp only [phase1] at h
    rcases List.mem_append.mp h with h' | h'
    · exact hP st r i h'
    · exact ih _ i h'

theorem processRow_notes_pairs (label : String) (tkeys : List String)
    (pairs : List (String × String)) (pos : Option (List (String × PosEntry)))
    (st : List (String × TrackData)) (r : Row) (hp : pairs.isEmpty = false) :
    ∀ i ∈ (processRow label tkeys pairs pos st r).2,
      isFuelNote i.note = false ∧ ¬ i.note = dupNote := by
  intro i hi
  rw [processRow] at hi
  by_cases h0 : getVal r tkeys = ""
  · simp [h0] at hi
  · simp only [h0, hp, Bool.false_eq_true, if_false, ite_false] at hi
    exact pairEmits_notes pairs pos (getVal r tkeys) label r i hi

theorem dupIssuesFor_fields (label t : String) (data : TrackData) :
    ∀ i ∈ dupIssuesFor label t data, i.tracking = t ∧ i.note = dupNote := by
  intro i hi
  rw [dupIssuesFor] at hi
  simp only [List.mem_filterMap] at hi
  obtain ⟨k, _, hf⟩ := hi
  split_ifs at hf with hc
  · exact (Option.some.inj hf).symm ▸ ⟨rfl, rfl⟩

theorem processRow_fuel_shape (label : String) (tkeys : List String)
    (pairs : List (String × String)) (pos : Option (List (String × PosEntry)))
    (st : List (String × TrackData)) (r : Row) (hp : pairs.isEmpty = true) :
    ∀ i ∈ (processRow label tkeys pairs pos st r).2,
      ∃ pct : ℚ, mkRat 35 100 < pct ∧ 0 < pct ∧ i.note = mkFuelNote pct ∧
        i.description = "Fuel Surcharge" ∧ i.carrier = label := by
  intro i hi
  rw [processRow] at hi
  by_cases h0 : getVal r tkeys = ""
  · simp [h0] at hi
  · simp only [h0, hp, if_false, ite_false, if_true, ite_true] at hi
    split_ifs at hi with hc1 hc2
    · simp only [List.mem_singleton] at hi
      subst hi
      rcases hc2 with h | h
      · exact ⟨_, h, by rw [qDiv_eq]; exact div_pos hc1.1 hc1.2, rfl, rfl, rfl⟩
      · exact absurd h (not_lt.mpr (le_of_lt (by rw [qDiv_eq]; exact div_pos hc1.1 hc1.2)))
    · simp at hi
    · simp at hi

theorem tdUpsert_items_inv (m : List (String × TrackData)) (t : String)
    (f : TrackData → TrackData) (hf : ∀ td : TrackData, (f td).items = td.items)
    (hm : ∀ p ∈ m, (p : String × TrackData).2.items = ([] : List (String × ℚ))) :
    ∀ p ∈ tdUpsert m t f, (p : String × TrackData).2.items = [] := by
  intro p hp
  rw [tdUpsert] at hp
  split_ifs at hp with h
  · obtain ⟨q, hq, hpq⟩ := List.mem_map.mp hp
    by_cases h1 : q.1 = t
    · rw [if_pos h1] at hpq
      rw [← hpq]
      simp [hf, hm q hq]
    · rw [if_neg h1] at hpq
      rw [← hpq]
      exact hm q hq
  · rcases List.mem_append.mp hp with h1 | h1
    · exact hm p h1
    · simp only [List.mem_singleton] at h1
      rw [h1]
      simp [hf, emptyTD]

theorem phase1_items_empty (label : String) (tkeys : List String)
    (pairs : List (String × String)) (pos : Option (List (String × PosEntry)))
    (hp : pairs.isEmpty = true) :
    ∀ (rows : List Row) (st : List (String × TrackData)),
      (∀ p ∈ st, (p : String × TrackData).2.items = ([] : List (String × ℚ))) →
      ∀ p ∈ (phase1 label tkeys pairs pos st rows).1,
        (p : String × TrackData).2.items = [] := by
  intro rows
  induction rows with
  | nil => intro st hst; simpa [phase1] using hst
  | cons r rs ih =>
    intro st hst
    simp only [phase1]
    apply ih
    rw [processRow_fst]
    by_cases h0 : getVal r tkeys = ""
    · simpa [h0] using hst
    · simp only [h0, hp, if_false, ite_false, if_true, ite_true]
      exact tdUpsert_items_inv st _ _ (fun td => rfl) hst

theorem dupIssuesFor_items_nil (label t : String) (data : TrackData)
    (h : data.items = []) : dupIssuesFor label t data = [] := by
  rw [dupIssuesFor, h]
  rfl

theorem phase1_append (label : String) (tkeys : List String)
    (pairs : List (String × String)) (pos : Option (List (String × PosEntry)))
    (xs : List Row) (r : Row) :
    ∀ st, phase1 label tkeys pairs pos st (xs ++ [r]) =
      ((processRow label tkeys pairs pos (phase1 label tkeys pairs pos st xs).1 r).1,
       (phase1 label tkeys pairs pos st xs).2 ++
         (processRow label tkeys pairs pos (phase1 label tkeys pairs pos st xs).1 r).2) := by
  induction xs with
  | nil => intro st; simp [phase1]
  | cons x xs ih =>
    intro st
    simp only [List.cons_append, phase1, List.append_eq, ih, List.append_assoc]

theorem processRow_emits_fuel (label : String) (tkeys : List String)
    (pairs : List (String × String)) (pos : Option (List (String × PosEntry)))
    (st : List (String × TrackData)) (r : Row) (t : String) (F T : ℚ)
    (hp : pairs.isEmpty = true) (hm : getVal r tkeys = t) (ht : ¬ t = "")
    (hF : fuelAt (processRow label tkeys pairs pos st r).1 t = F)
    (hT : transAt (processRow label tkeys pairs pos st r).1 t = T)
    (hF0 : 0 < F) (hT0 : 0 < T) (hR : mkRat 35 100 < qDiv F T) :
    (processRow label tkeys pairs pos st r).2 =
      [{ tracking := t, carrier := label, description := "Fuel Surcharge",
         amount := some (mkRat (toFixedInt 2 F) 100), note := mkFuelNote (qDiv F T) }] := by
  subst hm
  have h0 : ¬ getVal r tkeys = "" := ht
  rw [processRow_fst] at hF hT
  simp only [h0, hp, if_false, ite_false, if_true, ite_true] at hF hT
  rw [fuelAt] at hF
  rw [transAt] at hT
  rw [processRow]
  simp only [h0, hp, if_false, ite_false, if_true, ite_true]
  rw [hF, hT]
  rw [if_pos ⟨hF0, hT0⟩, if_pos (Or.inl hR)]

theorem phase1_fuel_exists (label : String) (tkeys : List String)
    (pairs : List (String × String)) (pos : Option (List (String × PosEntry)))
    (t : String) (ht : ¬ t = "") (hp : pairs.isEmpty = true) :
    ∀ rows : List Row,
      0 < fuelAt (phase1 label tkeys pairs pos [] rows).1 t →
      0 < transAt (phase1 label tkeys pairs pos [] rows).1 t →
      mkRat 35 100 < qDiv (fuelAt (phase1 label tkeys pairs pos [] rows).1 t)
        (transAt (phase1 label tkeys pairs pos [] rows).1 t) →
      ∃ i ∈ (phase1 label tkeys pairs pos [] rows).2,
        i.tracking = t ∧ i.note = mkFuelNote
          (qDiv (fuelAt (phase1 label tkeys pairs pos [] rows).1 t)
            (transAt (phase1 label tkeys pairs pos [] rows).1 t)) := by
  intro rows
  induction rows using List.reverseRecOn with
  | nil =>
    intro hF _ _
    simp [phase1, fuelAt, emptyTD] at hF
  | append_singleton xs r ih =>
    intro hF hT hR
    rw [phase1_append] at hF hT hR ⊢
    dsimp only at hF hT hR ⊢
    by_cases hm : getVal r tkeys = t
    · have hemit := processRow_emits_fuel label tkeys pairs pos
        (phase1 label tkeys pairs pos [] xs).1 r t
        (fuelAt (processRow label tkeys pairs pos (phase1 label tkeys pairs pos [] xs).1 r).1 t)
        (transAt (processRow label tkeys pairs pos (phase1 label tkeys pairs pos [] xs).1 r).1 t)
        hp hm ht rfl rfl hF hT hR
      refine ⟨⟨t, label, "Fuel Surcharge",
        some (mkRat (toFixedInt 2 (fuelAt (processRow label tkeys pairs pos
          (phase1 label tkeys pairs pos [] xs).1 r).1 t)) 100),
        mkFuelNote (qDiv (fuelAt (processRow label tkeys pairs pos
            (phase1 label tkeys pairs pos [] xs).1 r).1 t)
          (transAt (processRow label tkeys pairs pos
            (phase1 label tkeys pairs pos [] xs).1 r).1 t))⟩, ?_, rfl, rfl⟩
      rw [hemit]
      exact List.mem_append_right _ (List.mem_singleton_self _)
    · have hFu : fuelAt (processRow label tkeys pairs pos
          (phase1 label tkeys pairs pos [] xs).1 r).1 t =
          fuelAt (phase1 label tkeys pairs pos [] xs).1 t := by
        rw [processRow_fuelAt label tkeys pairs pos _ r t ht, if_neg hm]
      have hTr : transAt (processRow label tkeys pairs pos
          (phase1 label tkeys pairs pos [] xs).1 r).1 t =
          transAt (phase1 label tkeys pairs pos [] xs).1 t := by
        rw [processRow_transAt label tkeys pairs pos _ r t ht, if_neg hm]
      rw [hFu] at hF hR
      rw [hTr] at hT hR
      obtain ⟨i, hmem, hit, hin⟩ := ih hF hT hR
      exact ⟨i, List.mem_append_left _ hmem, hit, by rw [hin, hFu, hTr]⟩

/-- C9 (amended): a fuel-surcharge-anomaly issue is emitted only when the
source's first-row headers yield no itemised charge pairs; in that mode
every emitted billing issue is a fuel anomaly whose noted percentage
exceeds 35% and is positive (the negative branch of the source condition
is unreachable behind the positivity guard, and the check runs per row
on running totals), and whenever the final fuel and transportation
totals of a key are positive with ratio above 35% an anomaly issue is
emitted for that key. -/
theorem claim_C9_fuel_anomaly (rows : List Row) (label : String) (tkeys : List String)
    (pos : Option (List (String × PosEntry))) (t : String) (ht : ¬ t = "") :
    (¬ findChargePairs (headersOf rows) = [] →
        ∀ i ∈ auditBillingIssues rows label tkeys pos, isFuelNote i.note = false)
    ∧ (findChargePairs (headersOf rows) = [] →
        ∀ i ∈ auditBillingIssues rows label tkeys pos,
          ∃ pct : ℚ, mkRat 35 100 < pct ∧ 0 < pct ∧ i.note = mkFuelNote pct ∧
            i.description = "Fuel Surcharge" ∧ i.carrier = label)
    ∧ (findChargePairs (headersOf rows) = [] →
        0 < fuelAt (billingState rows label tkeys pos) t →
        0 < transAt (billingState rows label tkeys pos) t →
        mkRat 35 100 < qDiv (fuelAt (billingState rows label tkeys pos) t)
          (transAt (billingState rows label tkeys pos) t) →
        ∃ i ∈ auditBillingIssues rows label tkeys pos,
          i.tracking = t ∧ isFuelNote i.note = true) := by
  refine ⟨?_, ?_, ?_⟩
  · intro hne i hi
    cases rows with
    | nil => simp [auditBillingIssues] at hi
    | cons r0 rs =>
      have hp : (findChargePairs (List.map Prod.fst r0)).isEmpty = false := by
        cases hh : (findChargePairs (List.map Prod.fst r0)).isEmpty
        · rfl
        · exact absurd (List.isEmpty_iff.mp hh) hne
      simp only [auditBillingIssues] at hi
      rcases List.mem_append.mp hi with h | h
      · exact (phase1_issue_inv label tkeys _ pos _
          (fun st r j hj => processRow_notes_pairs label tkeys _ pos st r hp j hj) _ _ i h).1
      · rw [foldl_append_eq] at h
        simp only [List.nil_append] at h
        obtain ⟨lp, hlp, hilp⟩ := List.mem_flatten.mp h
        obtain ⟨p, hpmem, rfl⟩ := List.mem_map.mp hlp
        rw [(dupIssuesFor_fields label p.1 p.2 i hilp).2]
        exact isFuelNote_dupNote
  · intro hpe i hi
    cases rows with
    | nil => simp [auditBillingIssues] at hi
    | cons r0 rs =>
      have hp : (findChargePairs (List.map Prod.fst r0)).isEmpty = true :=
        List.isEmpty_iff.mpr hpe
      simp only [auditBillingIssues] at hi
      rcases List.mem_append.mp hi with h | h
      · exact phase1_issue_inv label tkeys _ pos _
          (fun st r j hj => processRow_fuel_shape label tkeys _ pos st r hp j hj) _ _ i h
      · rw [foldl_append_eq] at h
        simp only [List.nil_append] at h
        obtain ⟨lp, hlp, hilp⟩ := List.mem_flatten.mp h
        obtain ⟨p, hpmem, rfl⟩ := List.mem_map.mp hlp
        rw [dupIssuesFor_items_nil label p.1 p.2
          (phase1_items_empty label tkeys _ pos hp _ _ (by simp) p hpmem)] at hilp
        simp at hilp
  · intro hpe hF hT hR
    cases rows with
    | nil => simp [billingState, fuelAt, emptyTD] at hF
    | cons r0 rs =>
      have hp : (findChargePairs (List.map Prod.fst r0)).isEmpty = true :=
        List.isEmpty_iff.mpr hpe
      simp only [billingState] at hF hT hR
      obtain ⟨i, hmem, hit, hin⟩ :=
        phase1_fuel_exists label tkeys _ pos t ht hp (r0 :: rs) hF hT hR
      refine ⟨i, ?_, hit, ?_⟩
      · simp only [auditBillingIssues]
        exact List.mem_append_left _ hmem
      · rw [hin]
        exact isFuelNote_mkFuelNote _

/-- C9 counterexample: a source with no itemised pairs whose only key
has fuel −40 and transportation 100 — a negative fuel fraction — emits
no issue at all, because the emission is guarded by
`fuelAmt > 0 && transAmt > 0`; the claimed "or is negative" arm is
unreachable. -/
theorem claim_C9_counterexample :
    auditBillingIssues
        [[("Tracking Number", "1Z9"), ("Fuel Surcharge", "-40"),
          ("Transportation Charges", "100")]]
        "UPS" ["Tracking Number"] none = []
    ∧ findChargePairs (headersOf
        [[("Tracking Number", "1Z9"), ("Fuel Surcharge", "-40"),
          ("Transportation Charges", "100")]]) = []
    ∧ qDiv
        (fuelAt (billingState
          [[("Tracking Number", "1Z9"), ("Fuel Surcharge", "-40"),
            ("Transportation Charges", "100")]] "UPS" ["Tracking Number"] none) "1Z9")
        (transAt (billingState
          [[("Tracking Number", "1Z9"), ("Fuel Surcharge", "-40"),
            ("Transportation Charges", "100")]] "UPS" ["Tracking Number"] none) "1Z9")
        < 0 := by decide

/-- Witness for C9: fuel 40 against transportation 100 (ratio 40%)
with no itemised pairs produces a fuel-anomaly issue for the key. -/
theorem claim_C9_fuel_anomaly_witness :
    (¬ ("1Z9" : String) = "") ∧
    ∃ i ∈ auditBillingIssues
        [[("Tracking Number", "1Z9"), ("Fuel Surcharge", "40"),
          ("Transportation Charges", "100")]]
        "UPS" ["Tracking Number"] none,
      i.tracking = "1Z9" ∧ isFuelNote i.note = true :=
  ⟨by decide,
    (claim_C9_fuel_anomaly
        [[("Tracking Number", "1Z9"), ("Fuel Surcharge", "40"),
          ("Transportation Charges", "100")]]
        "UPS" ["Tracking Number"] none "1Z9" (by decide)).2.2
      (by decide) (by decide) (by decide) (by decide)⟩

theorem mkFuelNote_ne_dupNote (pct : ℚ) : ¬ mkFuelNote pct = dupNote := by
  intro he
  have h1 := isFuelNote_mkFuelNote pct
  rw [he, isFuelNote_dupNote] at h1
  exact Bool.false_ne_true h1

theorem processRow_note_ne_dup (label : String) (tkeys : List String)
    (pairs : List (String × String)) (pos : Option (List (String × PosEntry)))
    (st : List (String × TrackData)) (r : Row) :
    ∀ i ∈ (processRow label tkeys pairs pos st r).2, ¬ i.note = dupNote := by
  intro i hi
  cases hp : pairs.isEmpty with
  | true =>
    obtain ⟨pct, _, _, hnote, _, _⟩ :=
      processRow_fuel_shape label tkeys pairs pos st r hp i hi
    rw [hnote]
    exact mkFuelNote_ne_dupNote pct
  | false => exact (processRow_notes_pairs label tkeys pairs pos st r hp i hi).2

theorem map_fst_tdUpsert (m : List (String × TrackData)) (t : String)
    (f : TrackData → TrackData) :
    (tdUpsert m t f).map Prod.fst =
      if (List.lookup t m).isSome then m.map Prod.fst else m.map Prod.fst ++ [t] := by
  rw [tdUpsert]
  split_ifs with h
  · rw [List.map_map]
    apply List.map_congr_left
    intro p _
    by_cases h1 : p.1 = t <;> simp [h1]
  · simp

theorem tdUpsert_keys_nodup (m : List (String × TrackData)) (t : String)
    (f : TrackData → TrackData) (h : (m.map Prod.fst).Nodup) :
    ((tdUpsert m t f).map Prod.fst).Nodup := by
  rw [map_fst_tdUpsert]
  split_ifs with hs
  · exact h
  · have hnm : t ∉ m.map Prod.fst :=
      (lookup_eq_none_iff m t).mp (Option.not_isSome_iff_eq_none.mp hs)
    simp [List.nodup_append, h, hnm]

theorem processRow_keys_nodup (label : String) (tkeys : List String)
    (pairs : List (String × String)) (pos : Option (List (String × PosEntry)))
    (st : List (String × TrackData)) (r : Row) (h : (st.map Prod.fst).Nodup) :
    (((processRow label tkeys pairs pos st r).1).map Prod.fst).Nodup := by
  rw [processRow_fst]
  by_cases h0 : getVal r tkeys = ""
  · simpa [h0] using h
  · simp only [h0, if_false, ite_false]
    by_cases hp : pairs.isEmpty = true
    · rw [if_pos hp]
      exact tdUpsert_keys_nodup _ _ _ h
    · rw [if_neg hp]
      exact tdUpsert_keys_nodup _ _ _ (tdUpsert_keys_nodup _ _ _ h)

theorem phase1_keys_nodup (label : String) (tkeys : List String)
    (pairs : List (String × String)) (pos : Option (List (String × PosEntry))) :
    ∀ (rows : List Row) (st : List (String × TrackData)),
      (st.map Prod.fst).Nodup →
      (((phase1 label tkeys pairs pos st rows).1).map Prod.fst).Nodup := by
  intro rows
  induction rows with
  | nil => intro st h; simpa [phase1] using h
  | cons r rs ih =>
    intro st h
    simp only [phase1]
    exact ih _ (processRow_keys_nodup label tkeys pairs pos st r h)

theorem lookup_of_mem_nodup (l : List (String × TrackData))
    (hnd : (l.map Prod.fst).Nodup) (p : String × TrackData) (hp : p ∈ l) :
    List.lookup p.1 l = some p.2 := by
  induction l with
  | nil => cases hp
  | cons q l ih =>
    rw [List.map_cons] at hnd
    obtain ⟨hq, hnd'⟩ := List.nodup_cons.mp hnd
    rcases List.mem_cons.mp hp with rfl | hp'
    · simp [List.lookup]
    · have hne : p.1 ≠ q.1 := by
        intro he
        exact hq (he ▸ List.mem_map_of_mem Prod.fst hp')
      rw [List.lookup, beq_eq_false_iff_ne.mpr hne]
      exact ih hnd' hp'

theorem dupIssuesFor_countP (label u t : String) (data : TrackData) :
    (dupIssuesFor label u data).countP
        (fun i => i.tracking == t && i.note == dupNote)
      = if u = t then (dupIssuesFor label u data).length else 0 := by
  by_cases hu : u = t
  · subst hu
    rw [if_pos rfl]
    apply List.countP_eq_length.mpr
    intro i hi
    obtain ⟨h1, h2⟩ := dupIssuesFor_fields label u data i hi
    simp [h1, h2]
  · rw [if_neg hu]
    apply List.countP_eq_zero.mpr
    intro i hi
    obtain ⟨h1, h2⟩ := dupIssuesFor_fields label u data i hi
    simp [h1, hu]

theorem dupIssuesFor_length (label u : String) (data : TrackData) :
    (dupIssuesFor label u data).length =
      ((distinctL (data.items.map dupKey)).filter
        (fun k => 2 ≤ (data.items.map dupKey).count k)).length :=
  (length_filterMap_ite
      (fun k => 2 ≤ (data.items.map dupKey).count k)
      (fun k =>
        ({ tracking := u
           carrier := label
           description := (List.map String.mk (splitOnChar '|' k.toList)).headD ""
           amount := match (List.map String.mk (splitOnChar '|' k.toList))[1]? with
             | some p => jsNumber p
             | none => none
           note := dupNote } : ChargeIssue))
      (distinctL (data.items.map dupKey))).trans
    (List.countP_eq_length_filter _ _)

/-- C8: for any source rows and tracking key, the number of
"Possible duplicate charge" issues emitted for that key equals the
number of distinct duplicate groups — item groups keyed by
description + "|" + amount.toFixed(2) within the key's accumulated
items whose member count is at least 2 — one issue per group, never one
per repeated item; no other phase of the audit emits that note. -/
theorem claim_C8_duplicates (rows : List Row) (label : String) (tkeys : List String)
    (pos : Option (List (String × PosEntry))) (t : String) :
    (auditBillingIssues rows label tkeys pos).countP
        (fun i => i.tracking == t && i.note == dupNote)
      = ((distinctL ((itemsOf (billingState rows label tkeys pos) t).map dupKey)).filter
          (fun k => 2 ≤ ((itemsOf (billingState rows label tkeys pos) t).map dupKey).count k)).length := by
  cases rows with
  | nil =>
    simp [auditBillingIssues, billingState, itemsOf, emptyTD, distinctL, distinctL.go]
  | cons r0 rs =>
    simp only [auditBillingIssues, billingState, itemsOf]
    have hnd : (((phase1 label tkeys (findChargePairs (List.map Prod.fst r0)) pos []
        (r0 :: rs)).1).map Prod.fst).Nodup :=
      phase1_keys_nodup label tkeys _ pos (r0 :: rs) [] (by simp)
    have hdup0 : ∀ i ∈ (phase1 label tkeys (findChargePairs (List.map Prod.fst r0)) pos []
        (r0 :: rs)).2, ¬ i.note = dupNote :=
      fun i hi => phase1_issue_inv label tkeys _ pos _
        (fun st r j hj => processRow_note_ne_dup label tkeys _ pos st r j hj) _ _ i hi
    set PI := phase1 label tkeys (findChargePairs (List.map Prod.fst r0)) pos []
        (r0 :: rs) with hPI
    rw [List.countP_append]
    have h1 : PI.2.countP (fun i => i.tracking == t && i.note == dupNote) = 0 :=
      List.countP_eq_zero.mpr (fun i hi => by simp [hdup0 i hi])
    rw [h1, foldl_append_eq, List.nil_append, countP_flatten_map, Nat.zero_add]
    have h2 : (PI.1.map (fun p =>
          (dupIssuesFor label p.1 p.2).countP (fun i => i.tracking == t && i.note == dupNote))).sum
        = (PI.1.map (fun p =>
            if p.1 = t then
              (dupIssuesFor label p.1 ((List.lookup p.1 PI.1).getD emptyTD)).length
            else 0)).sum := by
      refine congrArg List.sum (List.map_congr_left ?_)
      intro p hp
      rw [dupIssuesFor_countP label p.1 t p.2]
      by_cases hpt : p.1 = t
      · rw [if_pos hpt, if_pos hpt, lookup_of_mem_nodup PI.1 hnd p hp]
        rfl
      · rw [if_neg hpt, if_neg hpt]
    rw [h2]
    have h3 : (PI.1.map (fun p =>
          if p.1 = t then
            (dupIssuesFor label p.1 ((List.lookup p.1 PI.1).getD emptyTD)).length
          else 0))
        = ((PI.1.map Prod.fst).map (fun u =>
            if u = t then
              (dupIssuesFor label u ((List.lookup u PI.1).getD emptyTD)).length
            else 0)) := by
      rw [List.map_map]
      exact List.map_congr_left (fun p _ => rfl)
    rw [h3, sum_if_single t
      (fun u => (dupIssuesFor label u ((List.lookup u PI.1).getD emptyTD)).length)
      (PI.1.map Prod.fst) hnd]
    by_cases hmem : t ∈ PI.1.map Prod.fst
    · rw [if_pos hmem, dupIssuesFor_length]
    · rw [if_neg hmem]
      have hlk : List.lookup t PI.1 = none := (lookup_eq_none_iff PI.1 t).mpr hmem
      simp [hlk, emptyTD, distinctL, distinctL.go]

example :
    (auditBillingIssues
      [[("Tracking Number", "1Z8"), ("Charge Description.1", "Extra"),
        ("Charge Amount.1", "5"), ("Charge Description.2", "Extra"),
        ("Charge Amount.2", "5")]] "UPS" ["Tracking Number"] none).countP
      (fun i => i.tracking == "1Z8" && i.note == dupNote) = 1 := by decide

example :
    (auditBillingIssues
      [[("Tracking Number", "1Z8"), ("Charge Description.1", "Extra"),
        ("Charge Amount.1", "5"), ("Charge Description.2", "Extra"),
        ("Charge Amount.2", "5"), ("Charge Description.3", "Other"),
        ("Charge Amount.3", "5")]] "UPS" ["Tracking Number"] none).countP
      (fun i => i.note == dupNote) = 1 := by decide
